import Mathlib

/-!
Verification of the extraction-and-scoring pipeline of the annual-report
analysis system.  The definitions below are shallow embeddings, translated
from the Python sources:

* `split_text_into_chunks`, `llm_extract`, `llm_extract_chunked`,
  `_llm_extract_single_chunk` and the chunk-merging loop are from
  `corpus_builder.py`;
* `calculate_tfidf_for_year` is from `tfidf_calculator.py`;
* `calculate_company_scores` and `calculate_scores_for_year` are from
  `score_calculator.py`.

Python strings are modelled as `List Char`; Python floats are modelled as
real numbers; a Python exception escaping to the caller is modelled by
`Option.none`.  External LLM responses are modelled by an oracle that
assigns an outcome to every attempt of every call.
-/

/-! ## Python string primitives -/

/-- Python whitespace for `str.strip` / `str.split`:
space, tab, newline, carriage return, vertical tab, form feed. -/
def pyIsSpace (c : Char) : Bool :=
  c == ' ' || c == '\t' || c == '\n' || c == '\r' || c == '\x0b' || c == '\x0c'

/-- Python `str.lower`, character by character. -/
def pyLower (s : List Char) : List Char := s.map Char.toLower

/-- Python `str.strip()`: drop leading and trailing whitespace. -/
def pyStrip (s : List Char) : List Char :=
  ((s.dropWhile pyIsSpace).reverse.dropWhile pyIsSpace).reverse

/-- Does `pat` occur at the start of `s`?  (Python `str.startswith`.) -/
def listStartsWith : List Char → List Char → Bool
  | [], _ => true
  | _ :: _, [] => false
  | a :: pat, b :: s => a == b && listStartsWith pat s

/-- Does `pat` occur as a contiguous substring of `s`?  (Python `in`.) -/
def containsSub (pat : List Char) : List Char → Bool
  | [] => listStartsWith pat []
  | c :: rest => listStartsWith pat (c :: rest) || containsSub pat rest

/-- Non-overlapping occurrence count for a nonempty pattern, scanning left to
right (the recursive worker behind Python `str.count`). -/
def countOccurNE (p : Char) (ps : List Char) : List Char → Nat
  | [] => 0
  | c :: rest =>
    if listStartsWith (p :: ps) (c :: rest)
    then 1 + countOccurNE p ps (rest.drop ps.length)
    else countOccurNE p ps rest
termination_by s => s.length
decreasing_by
  · simpa using Nat.lt_succ_of_le (Nat.sub_le _ _)
  · simp

/-- Python `str.count`: non-overlapping substring occurrences; an empty
pattern counts `len s + 1` occurrences, as in Python. -/
def countOccur (pat s : List Char) : Nat :=
  match pat with
  | [] => s.length + 1
  | p :: ps => countOccurNE p ps s

/-- Number of whitespace-separated words (Python `str.split()` length).
The boolean records whether the previous character was a separator. -/
def wordCountGo : Bool → List Char → Nat
  | _, [] => 0
  | afterSpace, c :: rest =>
    if pyIsSpace c then wordCountGo true rest
    else (if afterSpace then 1 else 0) + wordCountGo false rest

def wordCount (s : List Char) : Nat := wordCountGo true s

/-- Join a list of strings with a separator (Python `sep.join`). -/
def joinSep (sep : List Char) : List (List Char) → List Char
  | [] => []
  | [p] => p
  | p :: q :: ps => p ++ sep ++ joinSep sep (q :: ps)

/-- The paragraph separator `"\n\n"` used by the chunker. -/
def sepNN : List Char := ['\n', '\n']

/-- Python `text.split("\n\n")`: split at non-overlapping occurrences of the
two-newline separator, scanning left to right. -/
def splitParas : List Char → List (List Char)
  | [] => [[]]
  | '\n' :: '\n' :: rest => [] :: splitParas rest
  | c :: rest =>
    match splitParas rest with
    | [] => [[c]]
    | p :: ps => (c :: p) :: ps

/-! ## Chunker (`corpus_builder.py`, `split_text_into_chunks`) -/

/-- The forced character-offset split of an oversized paragraph:
`for i in range(0, len(para), max_chars): chunks.append(para[i:i+max_chars])`.
A zero step would raise `ValueError` in Python; it is modelled as producing
no pieces and is unreachable for positive budgets. -/
def forceSplit (m : Nat) (s : List Char) : List (List Char) :=
  if hm : m = 0 then []
  else if hs : s = [] then []
  else s.take m :: forceSplit m (s.drop m)
termination_by s.length
decreasing_by
  have h1 : 0 < m := Nat.pos_of_ne_zero hm
  have h2 : 0 < s.length := List.length_pos.mpr hs
  simp only [List.length_drop]
  omega

/-- Python `if current_chunk: chunks.append(current_chunk.strip())`. -/
def flushCurrent (st : List (List Char) × List Char) : List (List Char) :=
  if st.2 = [] then st.1 else st.1 ++ [pyStrip st.2]

/-- One iteration of the paragraph-packing loop of `split_text_into_chunks`:
state is (emitted chunks, accumulating buffer). -/
def chunkStep (max_chars : Nat) (st : List (List Char) × List Char)
    (para : List Char) : List (List Char) × List Char :=
  if max_chars < para.length then
    (flushCurrent st ++ forceSplit max_chars para, [])
  else if st.2.length + para.length + 2 ≤ max_chars then
    (st.1, st.2 ++ para ++ sepNN)
  else
    (flushCurrent st, para ++ sepNN)

/-- Embedding of `split_text_into_chunks(text, max_tokens)` from `corpus_builder.py`:
the character budget is `max_chars = max_tokens * 4`; a short text is
returned whole; otherwise paragraphs are packed greedily, oversized
paragraphs are force-split, and the final buffer is flushed. -/
def split_text_into_chunks (text : List Char) (max_tokens : Nat := 100000) :
    List (List Char) :=
  let max_chars := max_tokens * 4
  if text.length ≤ max_chars then [text]
  else
    flushCurrent ((splitParas text).foldl (chunkStep max_chars) ([], []))

/-- The characters of a string that Python whitespace normalization cannot
touch: everything except whitespace. -/
def visibleChars (s : List Char) : List Char := s.filter (fun c => !(pyIsSpace c))

/-! ## Extraction client and aggregator (`corpus_builder.py`) -/

/-- A JSON value as the merge loop of `llm_extract_chunked` distinguishes
them: either a JSON array or anything else (string/number/object), which the
loop treats opaquely. -/
inductive JVal where
  | arr : List JVal → JVal
  | atom : String → JVal

/-- The parsed response of one successful LLM call: the optional
`structured_data` mapping (a JSON object, modelled as an association list in
insertion order) and the `text_segments` list. -/
structure ExtractionResult where
  structured_data : List (String × JVal)
  text_segments : List JVal

/-- The empty result `{"structured_data": {}, "text_segments": []}`. -/
def emptyExtraction : ExtractionResult := ⟨[], []⟩

/-- Outcome of one attempt of one LLM call, as seen by the retry loops:
a parsed response, a `json.JSONDecodeError`, an exception whose message
indicates a context-length/token limit, or any other exception. -/
inductive LLMOutcome where
  | ok : ExtractionResult → LLMOutcome
  | parseErr : LLMOutcome
  | tokenLimitErr : LLMOutcome
  | transportErr : LLMOutcome

/-- Python dict lookup on an association list. -/
def dictLookup {β : Type} (k : String) : List (String × β) → Option β
  | [] => none
  | (k', v) :: rest => if k' == k then some v else dictLookup k rest

/-- Python dict assignment `d[k] = v` on an association list: updating an
existing key keeps its position, a new key is appended. -/
def dictInsert {β : Type} (k : String) (v : β) :
    List (String × β) → List (String × β)
  | [] => [(k, v)]
  | (k', v') :: rest =>
    if k' == k then (k', v) :: rest else (k', v') :: dictInsert k v rest

/-- One `for key, value in structured.items()` iteration of the merge loop in
`llm_extract_chunked` (lines 245-254).  `none` models the `AttributeError`
Python would raise from `all_structured_data[key].extend(value)` if the
accumulated value were not a list. -/
def mergeStructStep (acc : List (String × JVal)) (key : String) (value : JVal) :
    Option (List (String × JVal)) :=
  match dictLookup key acc with
  | none =>
    some (dictInsert key (match value with | .arr xs => .arr xs | v => .arr [v]) acc)
  | some old =>
    match value with
    | .arr xs =>
      match old with
      | .arr ys => some (dictInsert key (.arr (ys ++ xs)) acc)
      | .atom _ => none
    | .atom a =>
      match old with
      | .arr ys => some (dictInsert key (.arr (ys ++ [.atom a])) acc)
      | .atom b => some (dictInsert key (.arr [.atom b, .atom a]) acc)

/-- Merge one chunk's `structured_data` into the accumulated mapping. -/
def mergeStructuredInto (acc : List (String × JVal))
    (items : List (String × JVal)) : Option (List (String × JVal)) :=
  items.foldlM (fun a kv => mergeStructStep a kv.1 kv.2) acc

/-- Merge one chunk's whole result into the accumulated result (the body of
the chunk loop of `llm_extract_chunked`): structured data via
`mergeStructStep`, text segments by concatenation. -/
def mergeChunkResult (acc : ExtractionResult) (r : ExtractionResult) :
    Option ExtractionResult := do
  let sd ← mergeStructuredInto acc.structured_data r.structured_data
  pure ⟨sd, acc.text_segments ++ r.text_segments⟩

/-- The aggregator: merge a sequence of extraction results into one, exactly
as the loop of `llm_extract_chunked` does starting from an empty accumulator. -/
def merge_results (results : List ExtractionResult) : Option ExtractionResult :=
  results.foldlM mergeChunkResult emptyExtraction

/-- The retry loop of `_llm_extract_single_chunk` over the remaining attempt
indices of `range(max_retries)`.  An empty parsed `text_segments` list is
retried except on the last attempt; `json.JSONDecodeError` and every other
exception (including token-limit ones, which this loop does not special-case)
are retried and degrade to the empty result on the last attempt.  Falling out
of the loop is Python's implicit `None`, modelled as `none`. -/
def single_chunk_loop (max_retries : Nat) (oracle : Nat → LLMOutcome) :
    List Nat → Option ExtractionResult
  | [] => none
  | attempt :: rest =>
    match oracle attempt with
    | .ok r =>
      if r.text_segments.isEmpty && decide (attempt < max_retries - 1)
      then single_chunk_loop max_retries oracle rest
      else some r
    | .parseErr =>
      if attempt < max_retries - 1 then single_chunk_loop max_retries oracle rest
      else some emptyExtraction
    | .tokenLimitErr =>
      if attempt < max_retries - 1 then single_chunk_loop max_retries oracle rest
      else some emptyExtraction
    | .transportErr =>
      if attempt < max_retries - 1 then single_chunk_loop max_retries oracle rest
      else some emptyExtraction

/-- Embedding of `_llm_extract_single_chunk(chunk)` with its default `max_retries = 3`;
the oracle gives the outcome of each attempt for this call. -/
def llm_extract_single_chunk (oracle : Nat → LLMOutcome) : Option ExtractionResult :=
  single_chunk_loop 3 oracle (List.range 3)

/-- One iteration of the chunk loop of `llm_extract_chunked`: run the
single-chunk extraction for chunk number `ic.1`, then merge its result. -/
def chunkAccStep (oracle : Nat → Nat → LLMOutcome) (acc : ExtractionResult)
    (ic : Nat × List Char) : Option ExtractionResult := do
  let r ← llm_extract_single_chunk (oracle ic.1)
  mergeChunkResult acc r

/-- Embedding of `llm_extract_chunked(text)` from `corpus_builder.py`: split the text with
`max_tokens = 100000`, extract every chunk with the retrying single-chunk
procedure, and merge all results.  `oracle i j` is the outcome of attempt `j`
of chunk `i`. -/
def llm_extract_chunked (text : List Char) (oracle : Nat → Nat → LLMOutcome) :
    Option ExtractionResult :=
  let chunks := split_text_into_chunks text 100000
  chunks.enum.foldlM (chunkAccStep oracle) emptyExtraction

/-- The retry loop of `llm_extract` over the remaining attempt indices of
`range(max_retries)`.  Identical to the single-chunk loop except that an
exception whose message indicates a token limit immediately reroutes to the
chunked fallback (passed in as `fallback`). -/
def llm_attempt_loop (max_retries : Nat) (oracle : Nat → LLMOutcome)
    (fallback : Option ExtractionResult) :
    List Nat → Option ExtractionResult
  | [] => none
  | attempt :: rest =>
    match oracle attempt with
    | .ok r =>
      if r.text_segments.isEmpty && decide (attempt < max_retries - 1)
      then llm_attempt_loop max_retries oracle fallback rest
      else some r
    | .parseErr =>
      if attempt < max_retries - 1 then llm_attempt_loop max_retries oracle fallback rest
      else some emptyExtraction
    | .tokenLimitErr => fallback
    | .transportErr =>
      if attempt < max_retries - 1 then llm_attempt_loop max_retries oracle fallback rest
      else some emptyExtraction

/-- Embedding of `llm_extract(text, max_retries)` from `corpus_builder.py`: if the
estimated token count `len(text) // 4` exceeds 100000, delegate to chunked
processing, else run the retry loop.  `oracle_top` gives the outcomes of the
direct attempts, `oracle_chunks` those of the chunked fallback. -/
def llm_extract (text : List Char) (oracle_top : Nat → LLMOutcome)
    (oracle_chunks : Nat → Nat → LLMOutcome) (max_retries : Nat := 3) :
    Option ExtractionResult :=
  if 100000 < text.length / 4 then llm_extract_chunked text oracle_chunks
  else
    llm_attempt_loop max_retries oracle_top (llm_extract_chunked text oracle_chunks)
      (List.range max_retries)

/-! ## TF-IDF calculator (`tfidf_calculator.py`) -/

/-- A keyword record from the keyword table. -/
structure Keyword where
  keyword : List Char
  category : String

/-- One saved TF-IDF record (`all_scores` entry). -/
structure TfidfScoreRow where
  ticker : String
  keyword : List Char
  keyword_category : String
  tf : ℝ
  idf : ℝ
  tfidf : ℝ

/-- The list `all_texts`: the year's corpus texts with falsy (empty) ones removed. -/
def allTextsOf (corpus : List (List Char)) : List (List Char) :=
  corpus.filter (fun t => !t.isEmpty)

/-- Python `full_corpus = " ".join(all_texts).lower()`. -/
def fullCorpusOf (corpus : List (List Char)) : List Char :=
  pyLower (joinSep [' '] (allTextsOf corpus))

/-- Python `segment_count = sum(1 for text in all_texts if kw_text in text.lower())`. -/
def segCount (all_texts : List (List Char)) (kw : List Char) : Nat :=
  (all_texts.filter (fun t => containsSub kw (pyLower t))).length

/-- Python `tf = kw_count / total_words if total_words > 0 else 0`. -/
noncomputable def tfFor (full_corpus : List Char) (total_words : Nat)
    (kw : List Char) : ℝ :=
  if 0 < total_words then (countOccur kw full_corpus : ℝ) / total_words else 0

/-- Python `idf = math.log(total_segments / segment_count) if segment_count > 0 else 0`. -/
noncomputable def idfFor (all_texts : List (List Char)) (kw : List Char) : ℝ :=
  if 0 < segCount all_texts kw
  then Real.log ((all_texts.length : ℝ) / (segCount all_texts kw : ℝ))
  else 0

/-- The per-keyword value stored in the `year_tfidf` dict. -/
structure YearTfidfEntry where
  category : String
  tf : ℝ
  idf : ℝ
  tfidf : ℝ

/-- Python dict assignment on a `List Char`-keyed association list
(`year_tfidf[kw_text] = ...`): updating keeps position, new keys append. -/
def dictInsertL {β : Type} (k : List Char) (v : β) :
    List (List Char × β) → List (List Char × β)
  | [] => [(k, v)]
  | (k', v') :: rest =>
    if k' = k then (k', v) :: rest else (k', v') :: dictInsertL k v rest

/-- The `year_tfidf` dict built by the keyword loop of
`calculate_tfidf_for_year`: only keywords with `tfidf > 0` are stored. -/
noncomputable def yearTfidfDict (corpus : List (List Char)) (keywords : List Keyword) :
    List (List Char × YearTfidfEntry) :=
  let all_texts := allTextsOf corpus
  let full_corpus := fullCorpusOf corpus
  let total_words := wordCount full_corpus
  keywords.foldl (fun d kw =>
    let kw_text := pyLower kw.keyword
    let tf := tfFor full_corpus total_words kw_text
    let idf := idfFor all_texts kw_text
    let tfidf := tf * idf
    if 0 < tfidf then dictInsertL kw_text ⟨kw.category, tf, idf, tfidf⟩ d else d) []

/-- Embedding of `calculate_tfidf_for_year` from `tfidf_calculator.py`: compute the year's
keyword weights, then for every company emit one row per surviving keyword
contained in that company's own lower-cased joined text.  A company is given
by its ticker and its list of corpus texts. -/
noncomputable def calculate_tfidf_for_year (corpus : List (List Char))
    (companies : List (String × List (List Char))) (keywords : List Keyword) :
    List TfidfScoreRow :=
  let all_texts := allTextsOf corpus
  if all_texts.isEmpty || companies.isEmpty then []
  else
    let year_tfidf := yearTfidfDict corpus keywords
    companies.flatMap (fun c =>
      let company_text := pyLower (joinSep [' '] c.2)
      (year_tfidf.filter (fun e => containsSub e.1 company_text)).map (fun e =>
        { ticker := c.1, keyword := e.1, keyword_category := e.2.category,
          tf := e.2.tf, idf := e.2.idf, tfidf := e.2.tfidf }))

/-! ## Score calculator (`score_calculator.py`) -/

/-- A TF-IDF row as read back by the score calculator: only the keyword
category and the tfidf value are used. -/
structure TFIDFRow where
  keyword_category : String
  tfidf : ℝ

/-- Python `self.eps = 1e-9`. -/
noncomputable def eps : ℝ := 1 / 1000000000

/-- Python `self.k = 5.0`, the density weight coefficient. -/
noncomputable def kCoeff : ℝ := 5

/-- Python `sum(row['tfidf'] for row in tfidf_data if row['keyword_category'] == cat)`. -/
noncomputable def categorySum (cat : String) (rows : List TFIDFRow) : ℝ :=
  ((rows.filter (fun r => r.keyword_category == cat)).map (fun r => r.tfidf)).sum

/-- The raw per-company scores returned by `calculate_company_scores`. -/
structure CompanyRaw where
  expansion_score : ℝ
  contraction_score : ℝ
  china_positive_score : ℝ
  china_negative_score : ℝ
  non_china_raw_score : ℝ
  total_tfidf : ℝ
  total_keywords_count : Nat

/-- Embedding of `calculate_company_scores` from `score_calculator.py`. -/
noncomputable def calculate_company_scores (tfidf_data : List TFIDFRow) : CompanyRaw :=
  let expansion := categorySum "expansion" tfidf_data
  let contraction := categorySum "contraction" tfidf_data
  let china_positive := categorySum "china_positive" tfidf_data
  let china_negative := categorySum "china_negative" tfidf_data
  let non_china := categorySum "non_china_regions" tfidf_data
  { expansion_score := expansion
    contraction_score := contraction
    china_positive_score := china_positive
    china_negative_score := china_negative
    non_china_raw_score := non_china
    total_tfidf := expansion + contraction + china_positive + china_negative
      + non_china + eps
    total_keywords_count := tfidf_data.length }

/-- One saved `quantitative_scores` row. -/
structure QuantScore where
  ticker : String
  investment_attitude_score : ℝ
  expansion_score : ℝ
  contraction_score : ℝ
  china_investment_score : ℝ
  china_positive_score : ℝ
  china_negative_score : ℝ
  non_china_investment_score : ℝ
  non_china_raw_score : ℝ
  china_investment_density : ℝ
  non_china_investment_density : ℝ
  china_investment_density_normalized : ℝ
  non_china_investment_density_normalized : ℝ
  total_keywords_count : Nat
  deriving Inhabited

/-- Python `np.mean` of a list. -/
noncomputable def npMean (xs : List ℝ) : ℝ := xs.sum / xs.length

/-- Python `np.std` of a list (population standard deviation). -/
noncomputable def npStd (xs : List ℝ) : ℝ :=
  Real.sqrt (npMean (xs.map (fun x => (x - npMean xs) ^ 2)))

/-- The final-score computation for one company (the body of the
`for scores in raw_scores` loop of `calculate_scores_for_year`), given the
year-wide mean and (eps-shifted) standard deviation of the non-China
densities. -/
noncomputable def finalQuantScore (nc_d_mean nc_d_std : ℝ) (ticker : String)
    (s : CompanyRaw) : QuantScore :=
  let total_tfidf := s.total_tfidf
  let exp_d := s.expansion_score / total_tfidf
  let con_d := s.contraction_score / total_tfidf
  let NSS := (exp_d - con_d) / (exp_d + con_d + eps)
  let attitude_NSS := (NSS + 1) * 50
  let density_factor := Real.log (1 + kCoeff * total_tfidf)
  let attitude_score := max 0 (min 100 (50 + (attitude_NSS - 50) * density_factor))
  let pos_d := s.china_positive_score / total_tfidf
  let neg_d := s.china_negative_score / total_tfidf
  let NSS_c := (pos_d - neg_d) / (pos_d + neg_d + eps)
  let china_NSS := (NSS_c + 1) * 50
  let china_score := max 0 (min 100 (50 + (china_NSS - 50) * density_factor))
  let nc_d := s.non_china_raw_score / total_tfidf
  let nc_z := (nc_d - nc_d_mean) / nc_d_std
  let non_china_score := max 0 (min 100 (nc_z * 10 + 50))
  let china_investment_density := s.china_positive_score / total_tfidf * 100
  let non_china_investment_density := s.non_china_raw_score / total_tfidf * 100
  let max_density := max china_investment_density non_china_investment_density
  let china_investment_density_normalized :=
    if 0 < max_density then china_investment_density / max_density * 100 else 50
  let non_china_investment_density_normalized :=
    if 0 < max_density then non_china_investment_density / max_density * 100 else 50
  { ticker := ticker
    investment_attitude_score := attitude_score
    expansion_score := s.expansion_score
    contraction_score := s.contraction_score
    china_investment_score := china_score
    china_positive_score := s.china_positive_score
    china_negative_score := s.china_negative_score
    non_china_investment_score := non_china_score
    non_china_raw_score := s.non_china_raw_score
    china_investment_density := china_investment_density
    non_china_investment_density := non_china_investment_density
    china_investment_density_normalized := china_investment_density_normalized
    non_china_investment_density_normalized := non_china_investment_density_normalized
    total_keywords_count := s.total_keywords_count }

/-- Embedding of `calculate_scores_for_year` from `score_calculator.py`: a company is
given by its ticker and its TF-IDF rows for the year; companies with no rows
are skipped; an empty year (or no valid company) saves nothing.  The result
is the list of saved `QuantScore` rows in company order. -/
noncomputable def calculate_scores_for_year
    (companies : List (String × List TFIDFRow)) : List QuantScore :=
  match companies with
  | [] => []
  | _ :: _ =>
    let raw_scores := companies.filterMap (fun c =>
      match c.2 with
      | [] => none
      | _ :: _ => some (c.1, calculate_company_scores c.2))
    match raw_scores with
    | [] => []
    | _ :: _ =>
      let non_china_densities :=
        raw_scores.map (fun s => s.2.non_china_raw_score / s.2.total_tfidf)
      let nc_d_mean := npMean non_china_densities
      let nc_d_std := npStd non_china_densities + eps
      raw_scores.map (fun s => finalQuantScore nc_d_mean nc_d_std s.1 s.2)

/-! ## Lemmas about the Python string primitives -/

theorem visibleChars_append (a b : List Char) :
    visibleChars (a ++ b) = visibleChars a ++ visibleChars b := by
  simp [visibleChars, List.filter_append]

theorem visibleChars_dropWhile (s : List Char) :
    visibleChars (s.dropWhile pyIsSpace) = visibleChars s := by
  induction s with
  | nil => rfl
  | cons c r ih =>
    by_cases h : pyIsSpace c = true
    · simp [List.dropWhile_cons, h, visibleChars, ih]
      simpa [visibleChars] using ih
    · simp [List.dropWhile_cons, h]

theorem visibleChars_reverse (s : List Char) :
    visibleChars s.reverse = (visibleChars s).reverse := by
  simp [visibleChars, List.filter_reverse]

theorem visibleChars_pyStrip (s : List Char) :
    visibleChars (pyStrip s) = visibleChars s := by
  unfold pyStrip
  rw [visibleChars_reverse, visibleChars_dropWhile, visibleChars_reverse,
    visibleChars_dropWhile, List.reverse_reverse]

theorem visibleChars_sepNN : visibleChars sepNN = [] := by decide

theorem visibleChars_joinSep_sepNN (l : List (List Char)) :
    visibleChars (joinSep sepNN l) = (l.map visibleChars).flatten := by
  induction l with
  | nil => rfl
  | cons p ps ih =>
    cases ps with
    | nil => simp [joinSep]
    | cons q ps' =>
      simp only [joinSep, List.map_cons, List.flatten_cons, visibleChars_append,
        visibleChars_sepNN, List.append_nil] at *
      rw [ih]

theorem splitParas_ne_nil (s : List Char) : splitParas s ≠ [] := by
  rw [splitParas.eq_def]
  split
  · simp
  · simp
  · split <;> simp

theorem joinSep_cons_head (c : Char) (p : List Char) (ps : List (List Char)) :
    joinSep sepNN ((c :: p) :: ps) = c :: joinSep sepNN (p :: ps) := by
  cases ps <;> simp [joinSep]

/-- Joining the paragraphs of `text.split("\n\n")` with `"\n\n"` gives back
the text: the split loses nothing. -/
theorem joinSep_splitParas (s : List Char) : joinSep sepNN (splitParas s) = s := by
  induction s using splitParas.induct with
  | case1 => rfl
  | case2 rest ih =>
    obtain ⟨q, ps, hq⟩ := List.exists_cons_of_ne_nil (splitParas_ne_nil rest)
    have h1 : splitParas ('\n' :: '\n' :: rest) = [] :: q :: ps := by
      rw [splitParas, hq]
    rw [h1, show joinSep sepNN ([] :: q :: ps) = sepNN ++ joinSep sepNN (q :: ps)
      from by simp [joinSep], ← hq, ih]
    rfl
  | case3 c rest hne hnil ih => exact absurd hnil (splitParas_ne_nil rest)
  | case4 c rest hne p ps hp ih =>
    rw [splitParas.eq_3 c rest hne, hp, joinSep_cons_head, ← hp, ih]

theorem forceSplit_flatten (m : Nat) (s : List Char) (hm : m ≠ 0) :
    (forceSplit m s).flatten = s := by
  induction s using forceSplit.induct m with
  | case1 x h0 => exact absurd h0 hm
  | case2 h0 => simp [forceSplit]
  | case3 x h0 hx ih =>
    rw [forceSplit.eq_def, dif_neg hm, dif_neg hx]
    simp [ih, List.take_append_drop]

theorem forceSplit_length_le (m : Nat) (s : List Char) :
    ∀ c ∈ forceSplit m s, c.length ≤ m := by
  by_cases hm : m = 0
  · rw [forceSplit.eq_def, dif_pos hm]; intro c hc; cases hc
  · induction s using forceSplit.induct m with
    | case1 x h0 => exact absurd h0 hm
    | case2 h0 => rw [forceSplit.eq_def, dif_neg hm, dif_pos rfl]; intro c hc; cases hc
    | case3 x h0 hx ih =>
      rw [forceSplit.eq_def, dif_neg hm, dif_neg hx]
      intro c hc
      rcases List.mem_cons.mp hc with h | h
      · subst h; simpa [List.length_take] using Nat.min_le_left m x.length
      · exact ih c h

theorem forceSplit_length_two (m : Nat) (s : List Char) (hm : m ≠ 0)
    (hs : s.length = m + 1) : (forceSplit m s).length = 2 := by
  have h0 : s ≠ [] := by intro h; rw [h] at hs; simp at hs
  have h1 : (s.drop m).length = 1 := by simp [List.length_drop, hs]
  have h2 : s.drop m ≠ [] := by
    intro h; rw [h] at h1; simp at h1
  have h3 : (s.drop m).drop m = [] := by
    apply List.eq_nil_of_length_eq_zero
    simp only [List.length_drop, h1]
    omega
  rw [forceSplit.eq_def, dif_neg hm, dif_neg h0]
  rw [forceSplit.eq_def, dif_neg hm, dif_neg h2]
  rw [h3, forceSplit.eq_def, dif_neg hm, dif_pos rfl]
  rfl

theorem pyStrip_length_le (s : List Char) : (pyStrip s).length ≤ s.length := by
  unfold pyStrip
  calc ((s.dropWhile pyIsSpace).reverse.dropWhile pyIsSpace).reverse.length
      = ((s.dropWhile pyIsSpace).reverse.dropWhile pyIsSpace).length :=
        List.length_reverse _
    _ ≤ (s.dropWhile pyIsSpace).reverse.length :=
        (List.dropWhile_sublist pyIsSpace).length_le
    _ = (s.dropWhile pyIsSpace).length := List.length_reverse _
    _ ≤ s.length := (List.dropWhile_sublist pyIsSpace).length_le

/-- Stripping a buffer that ends with the appended `"\n\n"` drops at least
those two characters: the stripped chunk is no longer than the paragraphs
packed into it. -/
theorem pyStrip_append_sepNN_length (y : List Char) :
    (pyStrip (y ++ sepNN)).length ≤ y.length := by
  unfold pyStrip
  rw [List.dropWhile_append]
  by_cases h : ((y.dropWhile pyIsSpace).isEmpty : Prop)
  · rw [if_pos h]
    simp [sepNN, List.dropWhile, pyIsSpace]
  · rw [if_neg h]
    have hrev : (y.dropWhile pyIsSpace ++ sepNN).reverse
        = '\n' :: '\n' :: (y.dropWhile pyIsSpace).reverse := by
      simp [sepNN]
    rw [hrev]
    have hdw : List.dropWhile pyIsSpace ('\n' :: '\n' :: (y.dropWhile pyIsSpace).reverse)
        = List.dropWhile pyIsSpace (y.dropWhile pyIsSpace).reverse := by
      rw [List.dropWhile_cons_of_pos (by decide), List.dropWhile_cons_of_pos (by decide)]
    rw [hdw]
    calc (List.dropWhile pyIsSpace (y.dropWhile pyIsSpace).reverse).reverse.length
        = (List.dropWhile pyIsSpace (y.dropWhile pyIsSpace).reverse).length :=
          List.length_reverse _
      _ ≤ (y.dropWhile pyIsSpace).reverse.length :=
          (List.dropWhile_sublist pyIsSpace).length_le
      _ = (y.dropWhile pyIsSpace).length := List.length_reverse _
      _ ≤ y.length := (List.dropWhile_sublist pyIsSpace).length_le

/-! ## Chunker: reconstruction and length invariants -/

theorem flushCurrent_flatten_visible (st : List (List Char) × List Char) :
    visibleChars (flushCurrent st).flatten = visibleChars (st.1.flatten ++ st.2) := by
  unfold flushCurrent
  by_cases h : st.2 = []
  · rw [if_pos h, h]
    simp
  · rw [if_neg h]
    simp [List.flatten_append, visibleChars_append, visibleChars_pyStrip]

theorem chunkStep_visible (mc : Nat) (hmc : mc ≠ 0)
    (st : List (List Char) × List Char) (para : List Char) :
    visibleChars ((chunkStep mc st para).1.flatten ++ (chunkStep mc st para).2)
      = visibleChars (st.1.flatten ++ st.2) ++ visibleChars para := by
  have hf : visibleChars (flushCurrent st).flatten
      = visibleChars st.1.flatten ++ visibleChars st.2 := by
    rw [flushCurrent_flatten_visible, visibleChars_append]
  unfold chunkStep
  by_cases h1 : mc < para.length
  · rw [if_pos h1]
    simp only [List.append_nil, List.flatten_append, visibleChars_append, hf,
      forceSplit_flatten mc para hmc, List.append_assoc]
  · rw [if_neg h1]
    by_cases h2 : st.2.length + para.length + 2 ≤ mc
    · rw [if_pos h2]
      simp only [visibleChars_append, visibleChars_sepNN, List.append_nil,
        List.append_assoc]
    · rw [if_neg h2]
      simp only [visibleChars_append, visibleChars_sepNN, List.append_nil, hf,
        List.append_assoc]

theorem chunkFold_visible (mc : Nat) (hmc : mc ≠ 0) :
    ∀ (paras : List (List Char)) (st : List (List Char) × List Char),
    visibleChars ((paras.foldl (chunkStep mc) st).1.flatten
        ++ (paras.foldl (chunkStep mc) st).2)
      = visibleChars (st.1.flatten ++ st.2) ++ (paras.map visibleChars).flatten := by
  intro paras
  induction paras with
  | nil => intro st; simp
  | cons p ps ih =>
    intro st
    rw [List.foldl_cons, ih (chunkStep mc st p), chunkStep_visible mc hmc st p]
    simp [List.append_assoc]

theorem flushCurrent_length (mc : Nat) (st : List (List Char) × List Char)
    (h1 : ∀ c ∈ st.1, c.length ≤ mc)
    (h2 : st.2 = [] ∨ ∃ y, st.2 = y ++ sepNN ∧ y.length ≤ mc) :
    ∀ c ∈ flushCurrent st, c.length ≤ mc := by
  unfold flushCurrent
  rcases h2 with h2 | ⟨y, hy, hylen⟩
  · rw [if_pos h2]; exact h1
  · have hne : st.2 ≠ [] := by rw [hy]; simp [sepNN]
    rw [if_neg hne]
    intro c hc
    rcases List.mem_append.mp hc with h | h
    · exact h1 c h
    · rw [List.mem_singleton.mp h, hy]
      exact le_trans (pyStrip_append_sepNN_length y) hylen

theorem chunkStep_length (mc : Nat) (st : List (List Char) × List Char)
    (para : List Char)
    (h1 : ∀ c ∈ st.1, c.length ≤ mc)
    (h2 : st.2 = [] ∨ ∃ y, st.2 = y ++ sepNN ∧ y.length ≤ mc) :
    (∀ c ∈ (chunkStep mc st para).1, c.length ≤ mc) ∧
    ((chunkStep mc st para).2 = [] ∨
      ∃ y, (chunkStep mc st para).2 = y ++ sepNN ∧ y.length ≤ mc) := by
  unfold chunkStep
  by_cases hf : mc < para.length
  · rw [if_pos hf]
    refine ⟨?_, Or.inl rfl⟩
    intro c hc
    rcases List.mem_append.mp hc with h | h
    · exact flushCurrent_length mc st h1 h2 c h
    · exact forceSplit_length_le mc para c h
  · rw [if_neg hf]
    by_cases hfit : st.2.length + para.length + 2 ≤ mc
    · rw [if_pos hfit]
      refine ⟨h1, Or.inr ⟨st.2 ++ para, by simp [List.append_assoc], ?_⟩⟩
      rw [List.length_append]
      omega
    · rw [if_neg hfit]
      exact ⟨flushCurrent_length mc st h1 h2,
        Or.inr ⟨para, rfl, Nat.le_of_not_lt hf⟩⟩

theorem chunkFold_length (mc : Nat) :
    ∀ (paras : List (List Char)) (st : List (List Char) × List Char),
    (∀ c ∈ st.1, c.length ≤ mc) →
    (st.2 = [] ∨ ∃ y, st.2 = y ++ sepNN ∧ y.length ≤ mc) →
    (∀ c ∈ (paras.foldl (chunkStep mc) st).1, c.length ≤ mc) ∧
    ((paras.foldl (chunkStep mc) st).2 = [] ∨
      ∃ y, (paras.foldl (chunkStep mc) st).2 = y ++ sepNN ∧ y.length ≤ mc) := by
  intro paras
  induction paras with
  | nil => intro st h1 h2; exact ⟨h1, h2⟩
  | cons p ps ih =>
    intro st h1 h2
    rw [List.foldl_cons]
    obtain ⟨g1, g2⟩ := chunkStep_length mc st p h1 h2
    exact ih (chunkStep mc st p) g1 g2

theorem splitParas_of_not_contains (s : List Char)
    (h : containsSub sepNN s = false) : splitParas s = [s] := by
  induction s using splitParas.induct with
  | case1 => rfl
  | case2 rest ih =>
    exfalso
    simp [containsSub, listStartsWith, sepNN] at h
  | case3 c rest hne hnil ih => exact absurd hnil (splitParas_ne_nil rest)
  | case4 c rest hne p ps hp ih =>
    have hrest : containsSub sepNN rest = false := by
      simp only [containsSub, Bool.or_eq_false_iff] at h
      exact h.2
    have h2 : p :: ps = [rest] := hp.symm.trans (ih hrest)
    injection h2 with h3 h4
    rw [splitParas.eq_3 c rest hne, hp, h3, h4]

/-- Claim C3: for every input text and every positive character budget
(`max_chars = max_tokens * 4`, `max_tokens` positive), concatenating all
chunks returned by `split_text_into_chunks` reconstructs the original text
up to whitespace normalization: the non-whitespace characters of the
concatenated output equal, in order, the non-whitespace characters of the
input, so every paragraph's content appears in order and none is dropped. -/
theorem chunks_reconstruct_text (text : List Char) (max_tokens : Nat)
    (hmt : 0 < max_tokens) :
    visibleChars (split_text_into_chunks text max_tokens).flatten
      = visibleChars text := by
  simp only [split_text_into_chunks]
  by_cases h : text.length ≤ max_tokens * 4
  · rw [if_pos h]
    simp
  · rw [if_neg h]
    have hmc : max_tokens * 4 ≠ 0 := by omega
    rw [flushCurrent_flatten_visible,
      chunkFold_visible (max_tokens * 4) hmc (splitParas text) ([], [])]
    simp only [List.flatten_nil, List.append_nil, List.nil_append]
    rw [← visibleChars_joinSep_sepNN, joinSep_splitParas]
    rfl

/-- Witness for C3 at a concrete input. -/
theorem chunks_reconstruct_text_witness :
    visibleChars (split_text_into_chunks ['a', 'b'] 1).flatten
      = visibleChars ['a', 'b'] :=
  chunks_reconstruct_text ['a', 'b'] 1 (by decide)

/-- Claim C4: for every input text and positive budget, every chunk returned
by `split_text_into_chunks` has length at most `max_chars = max_tokens * 4`;
and an oversized paragraph is only emitted after the forced sub-split, whose
pieces all have length at most `max_chars`. -/
theorem chunk_length_le (text : List Char) (max_tokens : Nat)
    (hmt : 0 < max_tokens) :
    (∀ c ∈ split_text_into_chunks text max_tokens, c.length ≤ max_tokens * 4) ∧
    (∀ para : List Char, ∀ piece ∈ forceSplit (max_tokens * 4) para,
      piece.length ≤ max_tokens * 4) := by
  constructor
  · simp only [split_text_into_chunks]
    by_cases h : text.length ≤ max_tokens * 4
    · rw [if_pos h]
      intro c hc
      rw [List.mem_singleton.mp hc]
      exact h
    · rw [if_neg h]
      obtain ⟨g1, g2⟩ := chunkFold_length (max_tokens * 4) (splitParas text)
        ([], []) (by intro c hc; cases hc) (Or.inl rfl)
      exact flushCurrent_length (max_tokens * 4) _ g1 g2
  · intro para piece hp
    exact forceSplit_length_le _ _ piece hp

/-- Witness for C4 at a concrete input. -/
theorem chunk_length_le_witness :
    (∀ c ∈ split_text_into_chunks ['a', 'b', 'c', 'd', 'e'] 1,
      c.length ≤ 1 * 4) ∧
    (∀ para : List Char, ∀ piece ∈ forceSplit (1 * 4) para,
      piece.length ≤ 1 * 4) :=
  chunk_length_le ['a', 'b', 'c', 'd', 'e'] 1 (by decide)

/-- Claim C5: `split_text_into_chunks` returns exactly one chunk, the whole
text, whenever `len(text) ≤ max_chars` (including at the boundary), and a
text that is a single paragraph (no `"\n\n"`) of `max_chars + 1` characters
produces at least two chunks. -/
theorem split_single_or_forced (text : List Char) (max_tokens : Nat)
    (hmt : 0 < max_tokens) :
    (text.length ≤ max_tokens * 4 →
      split_text_into_chunks text max_tokens = [text]) ∧
    (containsSub sepNN text = false → text.length = max_tokens * 4 + 1 →
      2 ≤ (split_text_into_chunks text max_tokens).length) := by
  constructor
  · intro h
    simp only [split_text_into_chunks]
    rw [if_pos h]
  · intro hns hlen
    simp only [split_text_into_chunks]
    rw [if_neg (by omega), splitParas_of_not_contains text hns,
      List.foldl_cons, List.foldl_nil]
    have hforce : chunkStep (max_tokens * 4) ([], []) text
        = (forceSplit (max_tokens * 4) text, []) := by
      unfold chunkStep
      rw [if_pos (by omega)]
      simp [flushCurrent]
    rw [hforce, show flushCurrent (forceSplit (max_tokens * 4) text, [])
        = forceSplit (max_tokens * 4) text from by simp [flushCurrent],
      forceSplit_length_two (max_tokens * 4) text (by omega) hlen]

/-- Witness for C5 at concrete inputs: a text of exactly `max_chars`
characters stays one chunk; one character more (in a single paragraph)
forces at least two. -/
theorem split_single_or_forced_witness :
    split_text_into_chunks ['a', 'b', 'c', 'd'] 1 = [['a', 'b', 'c', 'd']] ∧
    2 ≤ (split_text_into_chunks ['a', 'b', 'c', 'd', 'e'] 1).length :=
  ⟨(split_single_or_forced ['a', 'b', 'c', 'd'] 1 (by decide)).1 (by decide),
   (split_single_or_forced ['a', 'b', 'c', 'd', 'e'] 1 (by decide)).2
     (by decide) (by decide)⟩

/-! ## Extraction client: dictionary and merge lemmas -/

theorem dictLookup_mem {β : Type} (k : String) (d : List (String × β)) (v : β)
    (h : dictLookup k d = some v) : (k, v) ∈ d := by
  induction d with
  | nil => cases h
  | cons p rest ih =>
    obtain ⟨k', v'⟩ := p
    by_cases hk : k' == k
    · rw [dictLookup, if_pos hk] at h
      rw [List.mem_cons]
      left
      rw [← beq_iff_eq.mp hk]
      injection h with h'
      rw [h']
    · rw [dictLookup, if_neg hk] at h
      exact List.mem_cons_of_mem _ (ih h)

theorem mem_dictInsert {β : Type} (k : String) (v : β) (d : List (String × β))
    (p : String × β) (h : p ∈ dictInsert k v d) : p = (k, v) ∨ p ∈ d := by
  induction d with
  | nil =>
    rw [dictInsert] at h
    exact Or.inl (List.mem_singleton.mp h)
  | cons q rest ih =>
    obtain ⟨k', v'⟩ := q
    by_cases hk : k' == k
    · rw [dictInsert, if_pos hk] at h
      rcases List.mem_cons.mp h with h | h
      · left
        rw [h, beq_iff_eq.mp hk]
      · exact Or.inr (List.mem_cons_of_mem _ h)
    · rw [dictInsert, if_neg hk] at h
      rcases List.mem_cons.mp h with h | h
      · exact Or.inr (h ▸ List.mem_cons_self _ _)
      · rcases ih h with h | h
        · exact Or.inl h
        · exact Or.inr (List.mem_cons_of_mem _ h)

theorem dictLookup_dictInsert_self {β : Type} (k : String) (v : β)
    (d : List (String × β)) : dictLookup k (dictInsert k v d) = some v := by
  induction d with
  | nil => simp [dictInsert, dictLookup]
  | cons q rest ih =>
    obtain ⟨k', v'⟩ := q
    by_cases hk : k' == k
    · rw [dictInsert, if_pos hk, dictLookup, if_pos hk]
    · rw [dictInsert, if_neg hk, dictLookup, if_neg hk]
      exact ih

theorem dictLookup_dictInsert_other {β : Type} (k k' : String) (v : β)
    (d : List (String × β)) (h : k' ≠ k) :
    dictLookup k' (dictInsert k v d) = dictLookup k' d := by
  induction d with
  | nil =>
    have : ¬(k == k') := by
      simp [beq_iff_eq]
      exact fun e => h e.symm
    simp [dictInsert, dictLookup, this]
  | cons q rest ih =>
    obtain ⟨k'', v''⟩ := q
    by_cases hk : k'' == k
    · have hn : ¬(k'' == k') := by
        rw [beq_iff_eq.mp hk]
        simp [beq_iff_eq]
        exact fun e => h e.symm
      rw [dictInsert, if_pos hk, dictLookup, if_neg hn, dictLookup, if_neg hn]
    · rw [dictInsert, if_neg hk]
      by_cases hk2 : k'' == k'
      · rw [dictLookup, if_pos hk2, dictLookup, if_pos hk2]
      · rw [dictLookup, if_neg hk2, dictLookup, if_neg hk2]
        exact ih

theorem mergeStructStep_arr (acc : List (String × JVal)) (k : String) (v : JVal)
    (hacc : ∀ p ∈ acc, ∃ xs, p.2 = JVal.arr xs) :
    ∃ acc', mergeStructStep acc k v = some acc' ∧
      ∀ p ∈ acc', ∃ xs, p.2 = JVal.arr xs := by
  unfold mergeStructStep
  cases hl : dictLookup k acc with
  | none =>
    refine ⟨_, rfl, ?_⟩
    intro p hp
    rcases mem_dictInsert _ _ _ _ hp with hp | hp
    · cases v <;> exact ⟨_, by rw [hp]⟩
    · exact hacc p hp
  | some old =>
    obtain ⟨ys, hys⟩ := hacc (k, old) (dictLookup_mem k acc old hl)
    simp only at hys
    subst hys
    cases v with
    | arr xs =>
      refine ⟨_, rfl, ?_⟩
      intro p hp
      rcases mem_dictInsert _ _ _ _ hp with hp | hp
      · exact ⟨_, by rw [hp]⟩
      · exact hacc p hp
    | atom a =>
      refine ⟨_, rfl, ?_⟩
      intro p hp
      rcases mem_dictInsert _ _ _ _ hp with hp | hp
      · exact ⟨_, by rw [hp]⟩
      · exact hacc p hp

theorem mergeStructuredInto_arr (items : List (String × JVal)) :
    ∀ acc : List (String × JVal), (∀ p ∈ acc, ∃ xs, p.2 = JVal.arr xs) →
    ∃ acc', mergeStructuredInto acc items = some acc' ∧
      ∀ p ∈ acc', ∃ xs, p.2 = JVal.arr xs := by
  induction items with
  | nil => intro acc hacc; exact ⟨acc, rfl, hacc⟩
  | cons kv rest ih =>
    intro acc hacc
    obtain ⟨a1, ha1, hinv1⟩ := mergeStructStep_arr acc kv.1 kv.2 hacc
    obtain ⟨a2, ha2, hinv2⟩ := ih a1 hinv1
    refine ⟨a2, ?_, hinv2⟩
    rw [mergeStructuredInto, List.foldlM_cons, ha1]
    exact ha2

theorem mergeChunkResult_some (acc r : ExtractionResult)
    (hacc : ∀ p ∈ acc.structured_data, ∃ xs, p.2 = JVal.arr xs) :
    ∃ m, mergeChunkResult acc r = some m ∧
      (∀ p ∈ m.structured_data, ∃ xs, p.2 = JVal.arr xs) ∧
      m.text_segments = acc.text_segments ++ r.text_segments := by
  obtain ⟨sd, hsd, hinv⟩ := mergeStructuredInto_arr r.structured_data
    acc.structured_data hacc
  exact ⟨⟨sd, acc.text_segments ++ r.text_segments⟩,
    by rw [mergeChunkResult, hsd]; rfl, hinv, rfl⟩

theorem mergeChunkResult_segments (acc r m : ExtractionResult)
    (h : mergeChunkResult acc r = some m) :
    m.text_segments = acc.text_segments ++ r.text_segments := by
  rw [mergeChunkResult] at h
  cases hsd : mergeStructuredInto acc.structured_data r.structured_data with
  | none => rw [hsd] at h; cases h
  | some sd =>
    rw [hsd] at h
    injection h with h'
    rw [← h']

/-! ## Extraction client: retry-loop lemmas -/

theorem isSome_ite {α : Type} {c : Prop} [Decidable c] {x y : Option α}
    (hx : x.isSome) (hy : y.isSome) : (if c then x else y).isSome := by
  split <;> assumption

theorem single_chunk_loop_last (o : Nat → LLMOutcome) :
    (single_chunk_loop 3 o [2]).isSome := by
  cases h : o 2 <;> simp [single_chunk_loop, h]

theorem single_chunk_loop_from1 (o : Nat → LLMOutcome) :
    (single_chunk_loop 3 o [1, 2]).isSome := by
  cases h : o 1 with
  | ok r =>
    simp only [single_chunk_loop, h]
    exact isSome_ite (single_chunk_loop_last o) rfl
  | parseErr =>
    simp only [single_chunk_loop, h]
    exact isSome_ite (single_chunk_loop_last o) rfl
  | tokenLimitErr =>
    simp only [single_chunk_loop, h]
    exact isSome_ite (single_chunk_loop_last o) rfl
  | transportErr =>
    simp only [single_chunk_loop, h]
    exact isSome_ite (single_chunk_loop_last o) rfl

theorem llm_extract_single_chunk_isSome (o : Nat → LLMOutcome) :
    (llm_extract_single_chunk o).isSome := by
  rw [llm_extract_single_chunk, show List.range 3 = [0, 1, 2] from rfl]
  cases h : o 0 with
  | ok r =>
    simp only [single_chunk_loop, h]
    exact isSome_ite (single_chunk_loop_from1 o) rfl
  | parseErr =>
    simp only [single_chunk_loop, h]
    exact isSome_ite (single_chunk_loop_from1 o) rfl
  | tokenLimitErr =>
    simp only [single_chunk_loop, h]
    exact isSome_ite (single_chunk_loop_from1 o) rfl
  | transportErr =>
    simp only [single_chunk_loop, h]
    exact isSome_ite (single_chunk_loop_from1 o) rfl

theorem single_chunk_fail (o : Nat → LLMOutcome)
    (h : ∀ i, o i = LLMOutcome.parseErr ∨ o i = LLMOutcome.transportErr) :
    llm_extract_single_chunk o = some emptyExtraction := by
  rw [llm_extract_single_chunk, show List.range 3 = [0, 1, 2] from rfl]
  rcases h 0 with h0 | h0 <;> rcases h 1 with h1 | h1 <;>
    rcases h 2 with h2 | h2 <;> simp [single_chunk_loop, h0, h1, h2]

theorem llm_attempt_loop_last (o : Nat → LLMOutcome)
    (fb : Option ExtractionResult) (hfb : fb.isSome) :
    (llm_attempt_loop 3 o fb [2]).isSome := by
  cases h : o 2 <;> simp [llm_attempt_loop, h, hfb]

theorem llm_attempt_loop_from1 (o : Nat → LLMOutcome)
    (fb : Option ExtractionResult) (hfb : fb.isSome) :
    (llm_attempt_loop 3 o fb [1, 2]).isSome := by
  cases h : o 1 with
  | ok r =>
    simp only [llm_attempt_loop, h]
    exact isSome_ite (llm_attempt_loop_last o fb hfb) rfl
  | parseErr =>
    simp only [llm_attempt_loop, h]
    exact isSome_ite (llm_attempt_loop_last o fb hfb) rfl
  | tokenLimitErr =>
    simp only [llm_attempt_loop, h]
    exact hfb
  | transportErr =>
    simp only [llm_attempt_loop, h]
    exact isSome_ite (llm_attempt_loop_last o fb hfb) rfl

theorem llm_attempt_loop_isSome (o : Nat → LLMOutcome)
    (fb : Option ExtractionResult) (hfb : fb.isSome) :
    (llm_attempt_loop 3 o fb [0, 1, 2]).isSome := by
  cases h : o 0 with
  | ok r =>
    simp only [llm_attempt_loop, h]
    exact isSome_ite (llm_attempt_loop_from1 o fb hfb) rfl
  | parseErr =>
    simp only [llm_attempt_loop, h]
    exact isSome_ite (llm_attempt_loop_from1 o fb hfb) rfl
  | tokenLimitErr =>
    simp only [llm_attempt_loop, h]
    exact hfb
  | transportErr =>
    simp only [llm_attempt_loop, h]
    exact isSome_ite (llm_attempt_loop_from1 o fb hfb) rfl

theorem llm_attempt_loop_fail (o : Nat → LLMOutcome)
    (fb : Option ExtractionResult)
    (h : ∀ i, o i = LLMOutcome.parseErr ∨ o i = LLMOutcome.transportErr) :
    llm_attempt_loop 3 o fb [0, 1, 2] = some emptyExtraction := by
  rcases h 0 with h0 | h0 <;> rcases h 1 with h1 | h1 <;>
    rcases h 2 with h2 | h2 <;> simp [llm_attempt_loop, h0, h1, h2]

/-! ## Extraction client: chunked-mode lemmas -/

theorem chunkAccStep_some (o : Nat → Nat → LLMOutcome) (acc : ExtractionResult)
    (ic : Nat × List Char)
    (hacc : ∀ p ∈ acc.structured_data, ∃ xs, p.2 = JVal.arr xs) :
    ∃ m, chunkAccStep o acc ic = some m ∧
      ∀ p ∈ m.structured_data, ∃ xs, p.2 = JVal.arr xs := by
  obtain ⟨r, hr⟩ := Option.isSome_iff_exists.mp (llm_extract_single_chunk_isSome (o ic.1))
  obtain ⟨m, hm, hinv, _⟩ := mergeChunkResult_some acc r hacc
  refine ⟨m, ?_, hinv⟩
  rw [chunkAccStep, hr]
  exact hm

theorem chunkFold_some (o : Nat → Nat → LLMOutcome) :
    ∀ (l : List (Nat × List Char)) (acc : ExtractionResult),
    (∀ p ∈ acc.structured_data, ∃ xs, p.2 = JVal.arr xs) →
    ∃ m, l.foldlM (chunkAccStep o) acc = some m := by
  intro l
  induction l with
  | nil => intro acc _; exact ⟨acc, rfl⟩
  | cons ic rest ih =>
    intro acc hacc
    obtain ⟨m1, hm1, hinv1⟩ := chunkAccStep_some o acc ic hacc
    obtain ⟨m2, hm2⟩ := ih m1 hinv1
    refine ⟨m2, ?_⟩
    rw [List.foldlM_cons, hm1]
    exact hm2

theorem llm_extract_chunked_isSome (text : List Char)
    (o : Nat → Nat → LLMOutcome) : (llm_extract_chunked text o).isSome := by
  rw [llm_extract_chunked]
  obtain ⟨m, hm⟩ := chunkFold_some o (split_text_into_chunks text 100000).enum
    emptyExtraction (by intro p hp; cases hp)
  rw [hm]
  rfl

theorem chunkAccStep_fail (o : Nat → Nat → LLMOutcome)
    (acc : ExtractionResult) (ic : Nat × List Char)
    (h : ∀ j, o ic.1 j = LLMOutcome.parseErr ∨ o ic.1 j = LLMOutcome.transportErr) :
    chunkAccStep o acc ic = some acc := by
  rw [chunkAccStep, single_chunk_fail (o ic.1) h]
  show mergeChunkResult acc emptyExtraction = some acc
  rw [mergeChunkResult]
  show (mergeStructuredInto acc.structured_data []).bind _ = some acc
  rw [show mergeStructuredInto acc.structured_data [] = some acc.structured_data
    from rfl]
  have hseg : acc.text_segments ++ emptyExtraction.text_segments
      = acc.text_segments := by
    simp [emptyExtraction]
  simp [hseg]

theorem chunkFold_fail (o : Nat → Nat → LLMOutcome)
    (h : ∀ i j, o i j = LLMOutcome.parseErr ∨ o i j = LLMOutcome.transportErr) :
    ∀ (l : List (Nat × List Char)) (acc : ExtractionResult),
    l.foldlM (chunkAccStep o) acc = some acc := by
  intro l
  induction l with
  | nil => intro acc; rfl
  | cons ic rest ih =>
    intro acc
    rw [List.foldlM_cons, chunkAccStep_fail o acc ic (h ic.1)]
    exact ih acc

theorem llm_extract_chunked_fail (text : List Char) (o : Nat → Nat → LLMOutcome)
    (h : ∀ i j, o i j = LLMOutcome.parseErr ∨ o i j = LLMOutcome.transportErr) :
    llm_extract_chunked text o = some emptyExtraction := by
  rw [llm_extract_chunked]
  exact chunkFold_fail o h _ emptyExtraction

/-- Claim C2: for every input text and every behaviour of the external LLM
service, `llm_extract` with its default `max_retries = 3` never lets an
exception escape to its caller (it always returns `some` result, where
`none` would model an escaping exception), and when every attempt fails
with a parse or transport error the returned result is the empty result;
in chunked mode the merged result is likewise returned without throwing. -/
theorem llm_extract_never_raises (text : List Char)
    (otop : Nat → LLMOutcome) (ochunk : Nat → Nat → LLMOutcome) :
    (∃ r, llm_extract text otop ochunk = some r) ∧
    ((∀ i, otop i = LLMOutcome.parseErr ∨ otop i = LLMOutcome.transportErr) →
     (∀ i j, ochunk i j = LLMOutcome.parseErr ∨
        ochunk i j = LLMOutcome.transportErr) →
     llm_extract text otop ochunk = some emptyExtraction) := by
  constructor
  · rw [llm_extract]
    by_cases h : 100000 < text.length / 4
    · rw [if_pos h]
      exact Option.isSome_iff_exists.mp (llm_extract_chunked_isSome text ochunk)
    · rw [if_neg h, show List.range 3 = [0, 1, 2] from rfl]
      exact Option.isSome_iff_exists.mp
        (llm_attempt_loop_isSome otop _ (llm_extract_chunked_isSome text ochunk))
  · intro h1 h2
    rw [llm_extract]
    by_cases h : 100000 < text.length / 4
    · rw [if_pos h]
      exact llm_extract_chunked_fail text ochunk h2
    · rw [if_neg h, show List.range 3 = [0, 1, 2] from rfl]
      exact llm_attempt_loop_fail otop _ h1

/-- Witness for C2: on a concrete text with all attempts failing to parse,
the extraction returns the empty result rather than raising. -/
theorem llm_extract_never_raises_witness :
    llm_extract ['x'] (fun _ => LLMOutcome.parseErr)
      (fun _ _ => LLMOutcome.parseErr) = some emptyExtraction :=
  (llm_extract_never_raises ['x'] (fun _ => LLMOutcome.parseErr)
      (fun _ _ => LLMOutcome.parseErr)).2
    (fun _ => Or.inl rfl) (fun _ _ => Or.inl rfl)

/-! ## Aggregator: lookup tracking through merges -/

theorem mergeStructStep_shape (acc : List (String × JVal)) (k : String)
    (v : JVal) (acc' : List (String × JVal))
    (h : mergeStructStep acc k v = some acc') :
    ∃ w, acc' = dictInsert k w acc := by
  cases hl : dictLookup k acc with
  | none =>
    simp only [mergeStructStep, hl] at h
    injection h with h'
    exact ⟨_, h'.symm⟩
  | some old =>
    cases old with
    | arr ys =>
      cases v with
      | arr xs =>
        simp only [mergeStructStep, hl] at h
        injection h with h'
        exact ⟨_, h'.symm⟩
      | atom a =>
        simp only [mergeStructStep, hl] at h
        injection h with h'
        exact ⟨_, h'.symm⟩
    | atom b =>
      cases v with
      | arr xs => simp [mergeStructStep, hl] at h
      | atom a =>
        simp only [mergeStructStep, hl] at h
        injection h with h'
        exact ⟨_, h'.symm⟩

theorem mergeStructStep_lookup_other (acc : List (String × JVal))
    (k k' : String) (v : JVal) (acc' : List (String × JVal)) (hk : k' ≠ k)
    (h : mergeStructStep acc k v = some acc') :
    dictLookup k' acc' = dictLookup k' acc := by
  obtain ⟨w, hw⟩ := mergeStructStep_shape acc k v acc' h
  rw [hw]
  exact dictLookup_dictInsert_other k k' w acc hk

theorem mergeInto_lookup_preserved (k : String) (items : List (String × JVal)) :
    ∀ (acc acc' : List (String × JVal)),
    (∀ p ∈ acc, ∃ xs, p.2 = JVal.arr xs) →
    (∀ kv ∈ items, kv.1 ≠ k) →
    mergeStructuredInto acc items = some acc' →
    dictLookup k acc' = dictLookup k acc := by
  induction items with
  | nil =>
    intro acc acc' _ _ h
    injection h with h'
    rw [← h']
  | cons kv rest ih =>
    intro acc acc' hinv hne h
    rw [mergeStructuredInto, List.foldlM_cons] at h
    cases ha1 : mergeStructStep acc kv.1 kv.2 with
    | none => rw [ha1] at h; cases h
    | some a1 =>
      rw [ha1] at h
      simp only [Option.bind_eq_bind, Option.some_bind] at h
      obtain ⟨a1', ha1', hinv1⟩ := mergeStructStep_arr acc kv.1 kv.2 hinv
      have he : a1 = a1' := by
        rw [ha1] at ha1'
        injection ha1'
      rw [he] at ha1 h
      have hrest : dictLookup k acc' = dictLookup k a1' :=
        ih a1' acc' hinv1 (fun kv' hkv' => hne kv' (List.mem_cons_of_mem _ hkv')) h
      rw [hrest,
        mergeStructStep_lookup_other acc kv.1 k kv.2 a1'
          (fun e => hne kv (List.mem_cons_self _ _) e.symm) ha1]

theorem mergeInto_lookup_arrkey (k : String) (xs : List JVal)
    (items : List (String × JVal)) :
    ∀ (acc acc' : List (String × JVal)),
    (∀ p ∈ acc, ∃ zs, p.2 = JVal.arr zs) →
    (items.map Prod.fst).Nodup →
    (k, JVal.arr xs) ∈ items →
    mergeStructuredInto acc items = some acc' →
    (dictLookup k acc = none → dictLookup k acc' = some (JVal.arr xs)) ∧
    (∀ ys, dictLookup k acc = some (JVal.arr ys) →
      dictLookup k acc' = some (JVal.arr (ys ++ xs))) := by
  induction items with
  | nil => intro acc acc' _ _ hmem; cases hmem
  | cons kv rest ih =>
    intro acc acc' hinv hnd hmem h
    rw [mergeStructuredInto, List.foldlM_cons] at h
    cases ha1 : mergeStructStep acc kv.1 kv.2 with
    | none => rw [ha1] at h; cases h
    | some a1 =>
      rw [ha1] at h
      simp only [Option.bind_eq_bind, Option.some_bind] at h
      obtain ⟨a1', ha1', hinv1⟩ := mergeStructStep_arr acc kv.1 kv.2 hinv
      have he : a1 = a1' := by
        rw [ha1] at ha1'
        injection ha1'
      rw [he] at ha1 h
      rcases List.mem_cons.mp hmem with hkv | hkv
      · -- this item is the (k, arr xs) assignment
        have hknotin : ∀ kv' ∈ rest, kv'.1 ≠ k := by
          intro kv' hkv' he2
          have : kv.1 ∈ rest.map Prod.fst := by
            rw [← hkv]
            simp only [← he2]
            exact List.mem_map_of_mem Prod.fst hkv'
          exact (List.nodup_cons.mp hnd).1 this
        have hpres : dictLookup k acc' = dictLookup k a1' :=
          mergeInto_lookup_preserved k rest a1' acc' hinv1 hknotin h
        simp only [← hkv] at ha1
        constructor
        · intro hnone
          rw [hpres]
          simp only [mergeStructStep, hnone] at ha1
          injection ha1 with h'
          rw [← h']
          exact dictLookup_dictInsert_self k (JVal.arr xs) acc
        · intro ys hys
          rw [hpres]
          simp only [mergeStructStep, hys] at ha1
          injection ha1 with h'
          rw [← h']
          exact dictLookup_dictInsert_self k (JVal.arr (ys ++ xs)) acc
      · -- the (k, arr xs) assignment is further down
        have hne : kv.1 ≠ k := by
          intro he2
          have : kv.1 ∈ rest.map Prod.fst := by
            rw [he2]
            exact List.mem_map_of_mem Prod.fst hkv
          exact (List.nodup_cons.mp hnd).1 this
        have hstep : dictLookup k a1' = dictLookup k acc :=
          mergeStructStep_lookup_other acc kv.1 k kv.2 a1'
            (fun e => hne e.symm) ha1
        obtain ⟨g1, g2⟩ := ih a1' acc' hinv1 (List.nodup_cons.mp hnd).2 hkv h
        exact ⟨fun hnone => g1 (hstep.trans hnone),
          fun ys hys => g2 ys (hstep.trans hys)⟩

theorem mergeFold_segments (rs : List ExtractionResult) :
    ∀ (acc m : ExtractionResult),
    rs.foldlM mergeChunkResult acc = some m →
    m.text_segments
      = acc.text_segments ++ (rs.map ExtractionResult.text_segments).flatten := by
  induction rs with
  | nil =>
    intro acc m h
    injection h with h'
    rw [← h']
    simp
  | cons r rest ih =>
    intro acc m h
    rw [List.foldlM_cons] at h
    cases ha : mergeChunkResult acc r with
    | none => rw [ha] at h; cases h
    | some a1 =>
      rw [ha] at h
      simp only [Option.bind_eq_bind, Option.some_bind] at h
      rw [ih a1 m h, mergeChunkResult_segments acc r a1 ha]
      simp [List.append_assoc]

/-- Claim C8: merging a sequence of `ExtractionResult`s concatenates their
`text_segments` preserving order, and for a key carrying list values of
lengths 2 and 3 in the two merged results, the merged value is one list of
length 5 preserving element order. -/
theorem merge_results_correct :
    (∀ (rs : List ExtractionResult) (m : ExtractionResult),
      merge_results rs = some m →
      m.text_segments = (rs.map ExtractionResult.text_segments).flatten) ∧
    (∀ (r1 r2 : ExtractionResult) (key : String) (xs ys : List JVal),
      (r1.structured_data.map Prod.fst).Nodup →
      (r2.structured_data.map Prod.fst).Nodup →
      (key, JVal.arr xs) ∈ r1.structured_data →
      (key, JVal.arr ys) ∈ r2.structured_data →
      xs.length = 2 → ys.length = 3 →
      ∃ m, merge_results [r1, r2] = some m ∧
        dictLookup key m.structured_data = some (JVal.arr (xs ++ ys)) ∧
        (xs ++ ys).length = 5 ∧
        m.text_segments = r1.text_segments ++ r2.text_segments) := by
  constructor
  · intro rs m h
    rw [merge_results] at h
    have := mergeFold_segments rs emptyExtraction m h
    simpa [emptyExtraction] using this
  · intro r1 r2 key xs ys hnd1 hnd2 hmem1 hmem2 hlen1 hlen2
    obtain ⟨sd1, hsd1, hinv1⟩ := mergeStructuredInto_arr r1.structured_data []
      (by intro p hp; cases hp)
    have hlook1 : dictLookup key sd1 = some (JVal.arr xs) :=
      (mergeInto_lookup_arrkey key xs r1.structured_data [] sd1
        (by intro p hp; cases hp) hnd1 hmem1 hsd1).1 rfl
    obtain ⟨sd2, hsd2, hinv2⟩ := mergeStructuredInto_arr r2.structured_data sd1 hinv1
    have hlook2 : dictLookup key sd2 = some (JVal.arr (xs ++ ys)) :=
      (mergeInto_lookup_arrkey key ys r2.structured_data sd1 sd2
        hinv1 hnd2 hmem2 hsd2).2 xs hlook1
    have hm1 : mergeChunkResult emptyExtraction r1
        = some ⟨sd1, [] ++ r1.text_segments⟩ := by
      rw [mergeChunkResult, show emptyExtraction.structured_data = [] from rfl,
        hsd1]
      rfl
    have hm2 : mergeChunkResult ⟨sd1, [] ++ r1.text_segments⟩ r2
        = some ⟨sd2, ([] ++ r1.text_segments) ++ r2.text_segments⟩ := by
      rw [mergeChunkResult,
        show (⟨sd1, [] ++ r1.text_segments⟩ : ExtractionResult).structured_data
          = sd1 from rfl, hsd2]
      rfl
    refine ⟨⟨sd2, ([] ++ r1.text_segments) ++ r2.text_segments⟩, ?_, hlook2,
      by simp [hlen1, hlen2], by simp⟩
    rw [merge_results, List.foldlM_cons, hm1]
    simp only [Option.bind_eq_bind, Option.some_bind]
    rw [List.foldlM_cons, hm2]
    simp only [Option.bind_eq_bind, Option.some_bind]
    rfl

/-- Witness for C8: merging two concrete results whose
`foreign_investments` lists have lengths 2 and 3. -/
theorem merge_results_correct_witness :
    ∃ m, merge_results
        [⟨[("foreign_investments",
            JVal.arr [JVal.atom "a", JVal.atom "b"])], [JVal.atom "s1"]⟩,
         ⟨[("foreign_investments",
            JVal.arr [JVal.atom "c", JVal.atom "d", JVal.atom "e"])],
          [JVal.atom "s2"]⟩] = some m ∧
      dictLookup "foreign_investments" m.structured_data
        = some (JVal.arr ([JVal.atom "a", JVal.atom "b"]
            ++ [JVal.atom "c", JVal.atom "d", JVal.atom "e"])) ∧
      ([JVal.atom "a", JVal.atom "b"]
        ++ [JVal.atom "c", JVal.atom "d", JVal.atom "e"]).length = 5 ∧
      m.text_segments = [JVal.atom "s1"] ++ [JVal.atom "s2"] :=
  merge_results_correct.2
    ⟨[("foreign_investments", JVal.arr [JVal.atom "a", JVal.atom "b"])],
      [JVal.atom "s1"]⟩
    ⟨[("foreign_investments",
        JVal.arr [JVal.atom "c", JVal.atom "d", JVal.atom "e"])],
      [JVal.atom "s2"]⟩
    "foreign_investments" [JVal.atom "a", JVal.atom "b"]
    [JVal.atom "c", JVal.atom "d", JVal.atom "e"]
    (by simp) (by simp) (by simp) (by simp) rfl rfl

/-! ## Score calculator: basic lemmas -/

theorem eps_pos : (0 : ℝ) < eps := by norm_num [eps]

theorem categorySum_nonneg (cat : String) (rows : List TFIDFRow)
    (h : ∀ r ∈ rows, 0 ≤ r.tfidf) : 0 ≤ categorySum cat rows := by
  apply List.sum_nonneg
  intro x hx
  obtain ⟨r, hr, hrx⟩ := List.mem_map.mp hx
  rw [← hrx]
  exact h r (List.mem_of_mem_filter hr)

theorem total_tfidf_pos (rows : List TFIDFRow)
    (h : ∀ r ∈ rows, 0 ≤ r.tfidf) :
    0 < (calculate_company_scores rows).total_tfidf := by
  have h1 := categorySum_nonneg "expansion" rows h
  have h2 := categorySum_nonneg "contraction" rows h
  have h3 := categorySum_nonneg "china_positive" rows h
  have h4 := categorySum_nonneg "china_negative" rows h
  have h5 := categorySum_nonneg "non_china_regions" rows h
  have he := eps_pos
  simp only [calculate_company_scores]
  linarith

theorem clamp_bounds (x : ℝ) :
    0 ≤ max 0 (min 100 x) ∧ max 0 (min 100 x) ≤ 100 :=
  ⟨le_max_left 0 _, max_le (by norm_num) (min_le_left 100 x)⟩

/-- Every saved score row arises as `finalQuantScore` applied to the raw
scores of some company of the year whose TF-IDF row list is nonempty. -/
theorem mem_scores_structure (companies : List (String × List TFIDFRow))
    (rec : QuantScore) (h : rec ∈ calculate_scores_for_year companies) :
    ∃ (m std : ℝ) (c : String × List TFIDFRow), c ∈ companies ∧ c.2 ≠ [] ∧
      rec = finalQuantScore m std c.1 (calculate_company_scores c.2) := by
  cases companies with
  | nil => cases h
  | cons c0 cs =>
    simp only [calculate_scores_for_year] at h
    split at h
    · cases h
    · obtain ⟨s, hs, hrec⟩ := List.mem_map.mp h
      obtain ⟨c, hc, hfc⟩ := List.mem_filterMap.mp hs
      cases hc2 : c.2 with
      | nil =>
        simp only [hc2] at hfc
        exact Option.noConfusion hfc
      | cons r rs =>
        simp only [hc2] at hfc
        injection hfc with hfc'
        rw [← hfc'] at hrec
        exact ⟨_, _, c, hc, by rw [hc2]; exact List.cons_ne_nil r rs,
          by rw [hc2]; exact hrec.symm⟩

theorem fqs_expansion (m std : ℝ) (t : String) (s : CompanyRaw) :
    (finalQuantScore m std t s).expansion_score = s.expansion_score := rfl

theorem fqs_contraction (m std : ℝ) (t : String) (s : CompanyRaw) :
    (finalQuantScore m std t s).contraction_score = s.contraction_score := rfl

theorem fqs_china_positive (m std : ℝ) (t : String) (s : CompanyRaw) :
    (finalQuantScore m std t s).china_positive_score = s.china_positive_score := rfl

theorem fqs_china_negative (m std : ℝ) (t : String) (s : CompanyRaw) :
    (finalQuantScore m std t s).china_negative_score = s.china_negative_score := rfl

theorem fqs_non_china_raw (m std : ℝ) (t : String) (s : CompanyRaw) :
    (finalQuantScore m std t s).non_china_raw_score = s.non_china_raw_score := rfl

theorem fqs_cdens (m std : ℝ) (t : String) (s : CompanyRaw) :
    (finalQuantScore m std t s).china_investment_density
      = s.china_positive_score / s.total_tfidf * 100 := rfl

theorem fqs_ncdens (m std : ℝ) (t : String) (s : CompanyRaw) :
    (finalQuantScore m std t s).non_china_investment_density
      = s.non_china_raw_score / s.total_tfidf * 100 := rfl

theorem fqs_cnorm (m std : ℝ) (t : String) (s : CompanyRaw) :
    (finalQuantScore m std t s).china_investment_density_normalized
      = (if 0 < max (s.china_positive_score / s.total_tfidf * 100)
            (s.non_china_raw_score / s.total_tfidf * 100)
        then (s.china_positive_score / s.total_tfidf * 100)
          / max (s.china_positive_score / s.total_tfidf * 100)
            (s.non_china_raw_score / s.total_tfidf * 100) * 100
        else 50) := rfl

theorem fqs_ncnorm (m std : ℝ) (t : String) (s : CompanyRaw) :
    (finalQuantScore m std t s).non_china_investment_density_normalized
      = (if 0 < max (s.china_positive_score / s.total_tfidf * 100)
            (s.non_china_raw_score / s.total_tfidf * 100)
        then (s.non_china_raw_score / s.total_tfidf * 100)
          / max (s.china_positive_score / s.total_tfidf * 100)
            (s.non_china_raw_score / s.total_tfidf * 100) * 100
        else 50) := rfl

theorem normPair_bounds (cd nd : ℝ) (hcd : 0 ≤ cd) (hnd : 0 ≤ nd) :
    (0 ≤ (if 0 < max cd nd then cd / max cd nd * 100 else 50) ∧
      (if 0 < max cd nd then cd / max cd nd * 100 else 50) ≤ 100) ∧
    (0 ≤ (if 0 < max cd nd then nd / max cd nd * 100 else 50) ∧
      (if 0 < max cd nd then nd / max cd nd * 100 else 50) ≤ 100) := by
  by_cases hM : 0 < max cd nd
  · rw [if_pos hM, if_pos hM]
    have h100 : (0 : ℝ) ≤ 100 := by norm_num
    refine ⟨⟨mul_nonneg (div_nonneg hcd hM.le) h100, ?_⟩,
      ⟨mul_nonneg (div_nonneg hnd hM.le) h100, ?_⟩⟩
    · have h1 : cd / max cd nd ≤ 1 := (div_le_one hM).mpr (le_max_left cd nd)
      calc cd / max cd nd * 100 ≤ 1 * 100 :=
            mul_le_mul_of_nonneg_right h1 h100
        _ = 100 := one_mul 100
    · have h1 : nd / max cd nd ≤ 1 := (div_le_one hM).mpr (le_max_right cd nd)
      calc nd / max cd nd * 100 ≤ 1 * 100 :=
            mul_le_mul_of_nonneg_right h1 h100
        _ = 100 := one_mul 100
  · rw [if_neg hM, if_neg hM]
    norm_num

theorem normPair_max (cd nd : ℝ) :
    (0 < max cd nd →
      max (if 0 < max cd nd then cd / max cd nd * 100 else 50)
        (if 0 < max cd nd then nd / max cd nd * 100 else 50) = 100) ∧
    (cd = 0 → nd = 0 →
      (if 0 < max cd nd then cd / max cd nd * 100 else 50) = 50 ∧
      (if 0 < max cd nd then nd / max cd nd * 100 else 50) = 50) := by
  constructor
  · intro hM
    rw [if_pos hM, if_pos hM]
    rcases le_total cd nd with hle | hle
    · have hm : max cd nd = nd := max_eq_right hle
      have hnd0 : 0 < nd := by rw [hm] at hM; exact hM
      have hle2 : cd / max cd nd * 100 ≤ nd / max cd nd * 100 := by
        apply mul_le_mul_of_nonneg_right _ (by norm_num : (0:ℝ) ≤ 100)
        rw [hm]
        exact (div_le_div_right hnd0).mpr hle
      rw [max_eq_right hle2, hm, div_self hnd0.ne', one_mul]
    · have hm : max cd nd = cd := max_eq_left hle
      have hcd0 : 0 < cd := by rw [hm] at hM; exact hM
      have hle2 : nd / max cd nd * 100 ≤ cd / max cd nd * 100 := by
        apply mul_le_mul_of_nonneg_right _ (by norm_num : (0:ℝ) ≤ 100)
        rw [hm]
        exact (div_le_div_right hcd0).mpr hle
      rw [max_eq_left hle2, hm, div_self hcd0.ne', one_mul]
  · intro h0 h1
    rw [h0, h1]
    norm_num

theorem fqs_clamped_bounds (m std : ℝ) (t : String) (s : CompanyRaw) :
    (0 ≤ (finalQuantScore m std t s).investment_attitude_score ∧
      (finalQuantScore m std t s).investment_attitude_score ≤ 100) ∧
    (0 ≤ (finalQuantScore m std t s).china_investment_score ∧
      (finalQuantScore m std t s).china_investment_score ≤ 100) ∧
    (0 ≤ (finalQuantScore m std t s).non_china_investment_score ∧
      (finalQuantScore m std t s).non_china_investment_score ≤ 100) := by
  refine ⟨?_, ?_, ?_⟩ <;> exact clamp_bounds _

/-- Claim C1: for every year input whose TF-IDF rows all carry non-negative
tfidf values, every saved score row has `investment_attitude_score`,
`china_investment_score`, `non_china_investment_score`,
`china_investment_density_normalized` and
`non_china_investment_density_normalized` in the closed interval 0 to 100. -/
theorem scores_bounded (companies : List (String × List TFIDFRow))
    (hn : ∀ c ∈ companies, ∀ r ∈ c.2, 0 ≤ r.tfidf)
    (rec : QuantScore) (h : rec ∈ calculate_scores_for_year companies) :
    (0 ≤ rec.investment_attitude_score ∧ rec.investment_attitude_score ≤ 100) ∧
    (0 ≤ rec.china_investment_score ∧ rec.china_investment_score ≤ 100) ∧
    (0 ≤ rec.non_china_investment_score ∧
      rec.non_china_investment_score ≤ 100) ∧
    (0 ≤ rec.china_investment_density_normalized ∧
      rec.china_investment_density_normalized ≤ 100) ∧
    (0 ≤ rec.non_china_investment_density_normalized ∧
      rec.non_china_investment_density_normalized ≤ 100) := by
  obtain ⟨m, std, c, hcmem, hcne, hrec⟩ := mem_scores_structure companies rec h
  subst hrec
  have hrows := hn c hcmem
  have hp : 0 ≤ (calculate_company_scores c.2).china_positive_score :=
    categorySum_nonneg "china_positive" c.2 hrows
  have hncr : 0 ≤ (calculate_company_scores c.2).non_china_raw_score :=
    categorySum_nonneg "non_china_regions" c.2 hrows
  have ht := total_tfidf_pos c.2 hrows
  obtain ⟨g1, g2, g3⟩ := fqs_clamped_bounds m std c.1 (calculate_company_scores c.2)
  have hcd : 0 ≤ (calculate_company_scores c.2).china_positive_score
      / (calculate_company_scores c.2).total_tfidf * 100 :=
    mul_nonneg (div_nonneg hp ht.le) (by norm_num)
  have hnd : 0 ≤ (calculate_company_scores c.2).non_china_raw_score
      / (calculate_company_scores c.2).total_tfidf * 100 :=
    mul_nonneg (div_nonneg hncr ht.le) (by norm_num)
  obtain ⟨g4, g5⟩ := normPair_bounds _ _ hcd hnd
  refine ⟨g1, g2, g3, ?_, ?_⟩
  · rw [fqs_cnorm]
    exact g4
  · rw [fqs_ncnorm]
    exact g5

/-- Witness for C1 at a concrete one-company year. -/
theorem scores_bounded_witness :
    (0 ≤ ((calculate_scores_for_year
        [("T", [⟨"expansion", 1⟩])]).headI).investment_attitude_score ∧
      ((calculate_scores_for_year
        [("T", [⟨"expansion", 1⟩])]).headI).investment_attitude_score ≤ 100) ∧
    (0 ≤ ((calculate_scores_for_year
        [("T", [⟨"expansion", 1⟩])]).headI).china_investment_score ∧
      ((calculate_scores_for_year
        [("T", [⟨"expansion", 1⟩])]).headI).china_investment_score ≤ 100) ∧
    (0 ≤ ((calculate_scores_for_year
        [("T", [⟨"expansion", 1⟩])]).headI).non_china_investment_score ∧
      ((calculate_scores_for_year
        [("T", [⟨"expansion", 1⟩])]).headI).non_china_investment_score ≤ 100) ∧
    (0 ≤ ((calculate_scores_for_year
        [("T", [⟨"expansion", 1⟩])]).headI).china_investment_density_normalized ∧
      ((calculate_scores_for_year
        [("T", [⟨"expansion", 1⟩])]).headI).china_investment_density_normalized
        ≤ 100) ∧
    (0 ≤ ((calculate_scores_for_year
        [("T", [⟨"expansion", 1⟩])]).headI).non_china_investment_density_normalized ∧
      ((calculate_scores_for_year
        [("T", [⟨"expansion", 1⟩])]).headI).non_china_investment_density_normalized
        ≤ 100) :=
  scores_bounded [("T", [⟨"expansion", 1⟩])]
    (by
      intro c hc r hr
      rw [List.mem_singleton.mp hc] at hr
      rw [List.mem_singleton.mp hr]
      norm_num)
    ((calculate_scores_for_year [("T", [⟨"expansion", 1⟩])]).headI)
    (by
      rw [show calculate_scores_for_year [("T", [⟨"expansion", 1⟩])]
          = [finalQuantScore
              (npMean [(calculate_company_scores
                  [⟨"expansion", 1⟩]).non_china_raw_score
                / (calculate_company_scores [⟨"expansion", 1⟩]).total_tfidf])
              (npStd [(calculate_company_scores
                  [⟨"expansion", 1⟩]).non_china_raw_score
                / (calculate_company_scores [⟨"expansion", 1⟩]).total_tfidf]
                + eps)
              "T" (calculate_company_scores [⟨"expansion", 1⟩])]
        from rfl]
      exact List.mem_singleton.mpr rfl)

theorem fqs_neutral (m std : ℝ) (t : String) (s : CompanyRaw)
    (he : s.expansion_score = 0) (hc : s.contraction_score = 0)
    (hcp : s.china_positive_score = 0) (hcn : s.china_negative_score = 0)
    (hnc : s.non_china_raw_score = 0) :
    (finalQuantScore m std t s).investment_attitude_score = 50 ∧
    (finalQuantScore m std t s).china_investment_score = 50 ∧
    (finalQuantScore m std t s).china_investment_density_normalized = 50 ∧
    (finalQuantScore m std t s).non_china_investment_density_normalized = 50 := by
  simp only [finalQuantScore, he, hc, hcp, hcn, hnc]
  norm_num

/-- Claim C9: a scored company whose five raw category sums are all zero
(total TF-IDF mass 0, so the total is only the epsilon) gets density-corrected
investment-attitude and China scores of exactly 50, and both normalized
densities exactly 50. -/
theorem neutral_company_scores (companies : List (String × List TFIDFRow))
    (rec : QuantScore) (h : rec ∈ calculate_scores_for_year companies)
    (he : rec.expansion_score = 0) (hc : rec.contraction_score = 0)
    (hcp : rec.china_positive_score = 0) (hcn : rec.china_negative_score = 0)
    (hnc : rec.non_china_raw_score = 0) :
    rec.investment_attitude_score = 50 ∧
    rec.china_investment_score = 50 ∧
    rec.china_investment_density_normalized = 50 ∧
    rec.non_china_investment_density_normalized = 50 := by
  obtain ⟨m, std, c, hcmem, hcne, hrec⟩ := mem_scores_structure companies rec h
  subst hrec
  rw [fqs_expansion] at he
  rw [fqs_contraction] at hc
  rw [fqs_china_positive] at hcp
  rw [fqs_china_negative] at hcn
  rw [fqs_non_china_raw] at hnc
  exact fqs_neutral m std c.1 (calculate_company_scores c.2) he hc hcp hcn hnc

/-- Witness for C9 at a concrete one-company year whose only row has a
category outside the five scored ones. -/
theorem neutral_company_scores_witness :
    ((calculate_scores_for_year
        [("T", [⟨"other", 1⟩])]).headI).investment_attitude_score = 50 ∧
    ((calculate_scores_for_year
        [("T", [⟨"other", 1⟩])]).headI).china_investment_score = 50 ∧
    ((calculate_scores_for_year
        [("T", [⟨"other", 1⟩])]).headI).china_investment_density_normalized
      = 50 ∧
    ((calculate_scores_for_year
        [("T", [⟨"other", 1⟩])]).headI).non_china_investment_density_normalized
      = 50 :=
  neutral_company_scores [("T", [⟨"other", 1⟩])]
    ((calculate_scores_for_year [("T", [⟨"other", 1⟩])]).headI)
    (by
      rw [show calculate_scores_for_year [("T", [⟨"other", 1⟩])]
          = [finalQuantScore
              (npMean [(calculate_company_scores
                  [⟨"other", 1⟩]).non_china_raw_score
                / (calculate_company_scores [⟨"other", 1⟩]).total_tfidf])
              (npStd [(calculate_company_scores
                  [⟨"other", 1⟩]).non_china_raw_score
                / (calculate_company_scores [⟨"other", 1⟩]).total_tfidf]
                + eps)
              "T" (calculate_company_scores [⟨"other", 1⟩])]
        from rfl]
      exact List.mem_singleton.mpr rfl)
    (by simp [calculate_scores_for_year, calculate_company_scores, categorySum,
      finalQuantScore, List.filterMap])
    (by simp [calculate_scores_for_year, calculate_company_scores, categorySum,
      finalQuantScore, List.filterMap])
    (by simp [calculate_scores_for_year, calculate_company_scores, categorySum,
      finalQuantScore, List.filterMap])
    (by simp [calculate_scores_for_year, calculate_company_scores, categorySum,
      finalQuantScore, List.filterMap])
    (by simp [calculate_scores_for_year, calculate_company_scores, categorySum,
      finalQuantScore, List.filterMap])

/-- Claim C10: for every saved score row, if the larger of the two raw
investment densities is positive then the larger of the two normalized
densities is exactly 100; and if both raw densities are zero then both
normalized densities are 50. -/
theorem norm_density_max (companies : List (String × List TFIDFRow))
    (rec : QuantScore) (h : rec ∈ calculate_scores_for_year companies) :
    (0 < max rec.china_investment_density rec.non_china_investment_density →
      max rec.china_investment_density_normalized
        rec.non_china_investment_density_normalized = 100) ∧
    (rec.china_investment_density = 0 → rec.non_china_investment_density = 0 →
      rec.china_investment_density_normalized = 50 ∧
      rec.non_china_investment_density_normalized = 50) := by
  obtain ⟨m, std, c, hcmem, hcne, hrec⟩ := mem_scores_structure companies rec h
  subst hrec
  rw [fqs_cdens, fqs_ncdens, fqs_cnorm, fqs_ncnorm]
  exact normPair_max _ _

/-- Witness for C10 at a concrete one-company year with positive China
density: the larger normalized density is exactly 100. -/
theorem norm_density_max_witness :
    max ((calculate_scores_for_year
        [("T", [⟨"china_positive", 1⟩])]).headI).china_investment_density_normalized
      ((calculate_scores_for_year
        [("T", [⟨"china_positive", 1⟩])]).headI).non_china_investment_density_normalized
      = 100 :=
  (norm_density_max [("T", [⟨"china_positive", 1⟩])]
    ((calculate_scores_for_year [("T", [⟨"china_positive", 1⟩])]).headI)
    (by
      rw [show calculate_scores_for_year [("T", [⟨"china_positive", 1⟩])]
          = [finalQuantScore
              (npMean [(calculate_company_scores
                  [⟨"china_positive", 1⟩]).non_china_raw_score
                / (calculate_company_scores
                  [⟨"china_positive", 1⟩]).total_tfidf])
              (npStd [(calculate_company_scores
                  [⟨"china_positive", 1⟩]).non_china_raw_score
                / (calculate_company_scores
                  [⟨"china_positive", 1⟩]).total_tfidf] + eps)
              "T" (calculate_company_scores [⟨"china_positive", 1⟩])]
        from rfl]
      exact List.mem_singleton.mpr rfl)).1
    (by
      rw [show ((calculate_scores_for_year
          [("T", [⟨"china_positive", 1⟩])]).headI).china_investment_density
          = (calculate_company_scores [⟨"china_positive", 1⟩]).china_positive_score
            / (calculate_company_scores [⟨"china_positive", 1⟩]).total_tfidf
            * 100 from rfl]
      have h1 : (calculate_company_scores
          [⟨"china_positive", 1⟩]).china_positive_score = 1 := by
        simp [calculate_company_scores, categorySum]
      have h2 : (calculate_company_scores
          [⟨"china_positive", 1⟩]).total_tfidf = 1 + eps := by
        simp [calculate_company_scores, categorySum]
      rw [h1, h2]
      have hpos : (0 : ℝ) < 1 / (1 + eps) * 100 := by
        apply mul_pos (div_pos one_pos (by norm_num [eps])) (by norm_num)
      exact lt_max_of_lt_left hpos)

theorem fqs_attitude_eq_50 (m std : ℝ) (t : String) (s : CompanyRaw)
    (he : s.expansion_score = s.contraction_score) :
    (finalQuantScore m std t s).investment_attitude_score = 50 := by
  simp only [finalQuantScore, he]
  norm_num

theorem fqs_attitude_gt_50 (m std : ℝ) (t : String) (s : CompanyRaw)
    (hcl : s.contraction_score < s.expansion_score)
    (hc0 : 0 ≤ s.contraction_score) (ht : 0 < s.total_tfidf) :
    50 < (finalQuantScore m std t s).investment_attitude_score := by
  simp only [finalQuantScore]
  have hnum : 0 < s.expansion_score / s.total_tfidf
      - s.contraction_score / s.total_tfidf := by
    rw [div_sub_div_same]
    exact div_pos (sub_pos.mpr hcl) ht
  have hden : 0 < s.expansion_score / s.total_tfidf
      + s.contraction_score / s.total_tfidf + eps := by
    have h1 : 0 ≤ s.expansion_score / s.total_tfidf :=
      div_nonneg (le_trans hc0 hcl.le) ht.le
    have h2 : 0 ≤ s.contraction_score / s.total_tfidf := div_nonneg hc0 ht.le
    have h3 := eps_pos
    linarith
  have hNSS : 0 < (s.expansion_score / s.total_tfidf
        - s.contraction_score / s.total_tfidf)
      / (s.expansion_score / s.total_tfidf
        + s.contraction_score / s.total_tfidf + eps) := div_pos hnum hden
  have hfac : 0 < Real.log (1 + kCoeff * s.total_tfidf) := by
    apply Real.log_pos
    have hk : 0 < kCoeff * s.total_tfidf := mul_pos (by norm_num [kCoeff]) ht
    linarith
  have hd : 0 < ((s.expansion_score / s.total_tfidf
        - s.contraction_score / s.total_tfidf)
      / (s.expansion_score / s.total_tfidf
        + s.contraction_score / s.total_tfidf + eps) + 1) * 50 - 50 := by
    linarith
  have hX : 50 < 50 + (((s.expansion_score / s.total_tfidf
        - s.contraction_score / s.total_tfidf)
      / (s.expansion_score / s.total_tfidf
        + s.contraction_score / s.total_tfidf + eps) + 1) * 50 - 50)
      * Real.log (1 + kCoeff * s.total_tfidf) := by
    have := mul_pos hd hfac
    linarith
  exact lt_of_lt_of_le (lt_min (by norm_num) hX) (le_max_right 0 _)

/-- Claim C6: in a year with exactly two companies whose category sums are
expansion 0.8 / contraction 0.1 (A) and expansion 0.1 / contraction 0.1 (B),
with all other categories 0, company A's investment attitude score is
strictly above 50 and strictly above company B's. -/
theorem scenario_two_companies (rowsA rowsB : List TFIDFRow)
    (hAe : categorySum "expansion" rowsA = 0.8)
    (hAc : categorySum "contraction" rowsA = 0.1)
    (hAp : categorySum "china_positive" rowsA = 0)
    (hAn : categorySum "china_negative" rowsA = 0)
    (hAnc : categorySum "non_china_regions" rowsA = 0)
    (hBe : categorySum "expansion" rowsB = 0.1)
    (hBc : categorySum "contraction" rowsB = 0.1)
    (hBp : categorySum "china_positive" rowsB = 0)
    (hBn : categorySum "china_negative" rowsB = 0)
    (hBnc : categorySum "non_china_regions" rowsB = 0) :
    ∃ recA recB,
      calculate_scores_for_year [("A", rowsA), ("B", rowsB)] = [recA, recB] ∧
      50 < recA.investment_attitude_score ∧
      recB.investment_attitude_score < recA.investment_attitude_score := by
  have hAne : rowsA ≠ [] := by
    intro h0
    rw [h0] at hAe
    norm_num [categorySum] at hAe
  have hBne : rowsB ≠ [] := by
    intro h0
    rw [h0] at hBe
    norm_num [categorySum] at hBe
  obtain ⟨a0, as, hA⟩ := List.exists_cons_of_ne_nil hAne
  obtain ⟨b0, bs, hB⟩ := List.exists_cons_of_ne_nil hBne
  subst hA hB
  set sA := calculate_company_scores (a0 :: as) with hsA
  set sB := calculate_company_scores (b0 :: bs) with hsB
  set M := npMean [sA.non_china_raw_score / sA.total_tfidf,
    sB.non_china_raw_score / sB.total_tfidf] with hM
  set S := npStd [sA.non_china_raw_score / sA.total_tfidf,
    sB.non_china_raw_score / sB.total_tfidf] + eps with hS
  have hyear : calculate_scores_for_year [("A", a0 :: as), ("B", b0 :: bs)]
      = [finalQuantScore M S "A" sA, finalQuantScore M S "B" sB] := rfl
  have h1 : sA.contraction_score < sA.expansion_score := by
    rw [show sA.contraction_score = categorySum "contraction" (a0 :: as) from rfl,
      show sA.expansion_score = categorySum "expansion" (a0 :: as) from rfl,
      hAc, hAe]
    norm_num
  have h2 : 0 ≤ sA.contraction_score := by
    rw [show sA.contraction_score = categorySum "contraction" (a0 :: as) from rfl,
      hAc]
    norm_num
  have h3 : 0 < sA.total_tfidf := by
    rw [show sA.total_tfidf = categorySum "expansion" (a0 :: as)
        + categorySum "contraction" (a0 :: as)
        + categorySum "china_positive" (a0 :: as)
        + categorySum "china_negative" (a0 :: as)
        + categorySum "non_china_regions" (a0 :: as) + eps from rfl,
      hAe, hAc, hAp, hAn, hAnc]
    norm_num [eps]
  have hBeq : sB.expansion_score = sB.contraction_score := by
    rw [show sB.expansion_score = categorySum "expansion" (b0 :: bs) from rfl,
      show sB.contraction_score = categorySum "contraction" (b0 :: bs) from rfl,
      hBe, hBc]
  have hgtA : 50 < (finalQuantScore M S "A" sA).investment_attitude_score :=
    fqs_attitude_gt_50 M S "A" sA h1 h2 h3
  have heqB : (finalQuantScore M S "B" sB).investment_attitude_score = 50 :=
    fqs_attitude_eq_50 M S "B" sB hBeq
  exact ⟨finalQuantScore M S "A" sA, finalQuantScore M S "B" sB, hyear, hgtA,
    by rw [heqB]; exact hgtA⟩

/-- Witness for C6 at concrete TF-IDF rows realizing the category sums. -/
theorem scenario_two_companies_witness :
    ∃ recA recB,
      calculate_scores_for_year
          [("A", [⟨"expansion", 0.8⟩, ⟨"contraction", 0.1⟩]),
           ("B", [⟨"expansion", 0.1⟩, ⟨"contraction", 0.1⟩])] = [recA, recB] ∧
      50 < recA.investment_attitude_score ∧
      recB.investment_attitude_score < recA.investment_attitude_score :=
  scenario_two_companies
    [⟨"expansion", 0.8⟩, ⟨"contraction", 0.1⟩]
    [⟨"expansion", 0.1⟩, ⟨"contraction", 0.1⟩]
    (by simp [categorySum]) (by simp [categorySum]) (by simp [categorySum])
    (by simp [categorySum]) (by simp [categorySum]) (by simp [categorySum])
    (by simp [categorySum]) (by simp [categorySum]) (by simp [categorySum])
    (by simp [categorySum])

/-! ## TF-IDF calculator lemmas -/

theorem foldl_inv {α σ : Type} (P : σ → Prop) (f : σ → α → σ)
    (hf : ∀ s a, P s → P (f s a)) :
    ∀ (l : List α) (s : σ), P s → P (l.foldl f s) := by
  intro l
  induction l with
  | nil => intro s hs; exact hs
  | cons a rest ih =>
    intro s hs
    rw [List.foldl_cons]
    exact ih (f s a) (hf s a hs)

theorem mem_dictInsertL {β : Type} (k : List Char) (v : β)
    (d : List (List Char × β)) (p : List Char × β)
    (h : p ∈ dictInsertL k v d) : p = (k, v) ∨ p ∈ d := by
  induction d with
  | nil =>
    rw [dictInsertL] at h
    exact Or.inl (List.mem_singleton.mp h)
  | cons q rest ih =>
    obtain ⟨k', v'⟩ := q
    by_cases hk : k' = k
    · rw [dictInsertL, if_pos hk] at h
      rcases List.mem_cons.mp h with h | h
      · left
        rw [h, hk]
      · exact Or.inr (List.mem_cons_of_mem _ h)
    · rw [dictInsertL, if_neg hk] at h
      rcases List.mem_cons.mp h with h | h
      · exact Or.inr (h ▸ List.mem_cons_self _ _)
      · rcases ih h with h | h
        · exact Or.inl h
        · exact Or.inr (List.mem_cons_of_mem _ h)

/-- Every entry of the `year_tfidf` dict has a positive tfidf that is the
product of the year-global tf and idf of its (lower-cased) key. -/
theorem yearTfidfDict_spec (corpus : List (List Char)) (keywords : List Keyword) :
    ∀ p ∈ yearTfidfDict corpus keywords,
      0 < p.2.tfidf ∧
      p.2.tfidf = tfFor (fullCorpusOf corpus) (wordCount (fullCorpusOf corpus)) p.1
        * idfFor (allTextsOf corpus) p.1 := by
  have main : ∀ (ks : List Keyword) (d : List (List Char × YearTfidfEntry)),
      (∀ p ∈ d, 0 < p.2.tfidf ∧
        p.2.tfidf = tfFor (fullCorpusOf corpus) (wordCount (fullCorpusOf corpus)) p.1
          * idfFor (allTextsOf corpus) p.1) →
      ∀ p ∈ ks.foldl (fun d kw =>
          if 0 < tfFor (fullCorpusOf corpus) (wordCount (fullCorpusOf corpus))
                (pyLower kw.keyword)
              * idfFor (allTextsOf corpus) (pyLower kw.keyword)
          then dictInsertL (pyLower kw.keyword)
            ⟨kw.category,
             tfFor (fullCorpusOf corpus) (wordCount (fullCorpusOf corpus))
               (pyLower kw.keyword),
             idfFor (allTextsOf corpus) (pyLower kw.keyword),
             tfFor (fullCorpusOf corpus) (wordCount (fullCorpusOf corpus))
                 (pyLower kw.keyword)
               * idfFor (allTextsOf corpus) (pyLower kw.keyword)⟩ d
          else d) d,
        0 < p.2.tfidf ∧
        p.2.tfidf = tfFor (fullCorpusOf corpus) (wordCount (fullCorpusOf corpus)) p.1
          * idfFor (allTextsOf corpus) p.1 := by
    intro ks
    induction ks with
    | nil => intro d hd; exact hd
    | cons kw rest ih =>
      intro d hd
      rw [List.foldl_cons]
      apply ih
      by_cases hc : 0 < tfFor (fullCorpusOf corpus) (wordCount (fullCorpusOf corpus))
          (pyLower kw.keyword) * idfFor (allTextsOf corpus) (pyLower kw.keyword)
      · rw [if_pos hc]
        intro p hp
        rcases mem_dictInsertL _ _ _ _ hp with hp | hp
        · rw [hp]
          exact ⟨hc, rfl⟩
        · exact hd p hp
      · rw [if_neg hc]
        exact hd
  exact main keywords [] (by intro p hp; cases hp)

/-- Claim C7: every TF-IDF row emitted for a year has strictly positive
tfidf; any lower-cased keyword text whose year-global `tf * idf` is not
positive produces no row at all; in particular a keyword occurring as a
substring in none of the year's segments has `idf = 0` and is excluded
entirely from the year's output. -/
theorem tfidf_keyword_exclusion (corpus : List (List Char))
    (companies : List (String × List (List Char))) (keywords : List Keyword) :
    (∀ row ∈ calculate_tfidf_for_year corpus companies keywords,
      0 < row.tfidf) ∧
    (∀ kwt : List Char,
      tfFor (fullCorpusOf corpus) (wordCount (fullCorpusOf corpus)) kwt
        * idfFor (allTextsOf corpus) kwt ≤ 0 →
      ∀ row ∈ calculate_tfidf_for_year corpus companies keywords,
        row.keyword ≠ kwt) ∧
    (∀ kw : Keyword,
      (∀ t ∈ corpus, containsSub (pyLower kw.keyword) (pyLower t) = false) →
      idfFor (allTextsOf corpus) (pyLower kw.keyword) = 0 ∧
      ∀ row ∈ calculate_tfidf_for_year corpus companies keywords,
        row.keyword ≠ pyLower kw.keyword) := by
  have hmem : ∀ row ∈ calculate_tfidf_for_year corpus companies keywords,
      ∃ e ∈ yearTfidfDict corpus keywords,
        row.keyword = e.1 ∧ row.tfidf = e.2.tfidf := by
    intro row hrow
    rw [calculate_tfidf_for_year] at hrow
    split at hrow
    · cases hrow
    · obtain ⟨c, _, hrow2⟩ := List.mem_flatMap.mp hrow
      obtain ⟨e, he, hrowe⟩ := List.mem_map.mp hrow2
      exact ⟨e, List.mem_of_mem_filter he, by rw [← hrowe], by rw [← hrowe]⟩
  have hpos : ∀ row ∈ calculate_tfidf_for_year corpus companies keywords,
      0 < row.tfidf := by
    intro row hrow
    obtain ⟨e, he, _, ht⟩ := hmem row hrow
    rw [ht]
    exact (yearTfidfDict_spec corpus keywords e he).1
  have hexcl : ∀ kwt : List Char,
      tfFor (fullCorpusOf corpus) (wordCount (fullCorpusOf corpus)) kwt
        * idfFor (allTextsOf corpus) kwt ≤ 0 →
      ∀ row ∈ calculate_tfidf_for_year corpus companies keywords,
        row.keyword ≠ kwt := by
    intro kwt hle row hrow hk
    obtain ⟨e, he, hkey, ht⟩ := hmem row hrow
    obtain ⟨hp, hval⟩ := yearTfidfDict_spec corpus keywords e he
    rw [hval, ← hkey, hk] at hp
    exact absurd hle (not_le.mpr hp)
  refine ⟨hpos, hexcl, ?_⟩
  intro kw hno
  have hsc : segCount (allTextsOf corpus) (pyLower kw.keyword) = 0 := by
    rw [segCount, List.length_eq_zero, List.filter_eq_nil_iff]
    intro t ht
    rw [hno t (List.mem_filter.mp ht).1]
    exact Bool.false_ne_true
  have hidf : idfFor (allTextsOf corpus) (pyLower kw.keyword) = 0 := by
    rw [idfFor, hsc]
    norm_num
  refine ⟨hidf, hexcl (pyLower kw.keyword) ?_⟩
  rw [hidf, mul_zero]

/-- Witness for C7: the keyword `"z"` occurs in no segment of a concrete
one-segment corpus, so its idf is 0 and no row carries it. -/
theorem tfidf_keyword_exclusion_witness :
    idfFor (allTextsOf [['a']]) (pyLower ['z']) = 0 ∧
    ∀ row ∈ calculate_tfidf_for_year [['a']] [("T", [['a']])]
        [⟨['z'], "expansion"⟩],
      row.keyword ≠ pyLower ['z'] :=
  (tfidf_keyword_exclusion [['a']] [("T", [['a']])]
    [⟨['z'], "expansion"⟩]).2.2 ⟨['z'], "expansion"⟩ (by decide)
